import Mathlib

/-!
Verification of the vulnity-kp scanning engine against its specification.

This file shallowly embeds the parts of the code base that the checked
properties talk about:

* the app-stack SQL-injection scanner
  (`backend/app/services/scanner/sql_injection.py`): its four detection
  strategies, payload catalog, and the per-parameter scan loop;
* the plugin-stack scanner (`backend/plugins/audit/sqli.py`): the
  time-based test with its 3-sample baseline and verification request,
  the error-based payload loop, and `_normalize_url`;
* the crawler (`backend/plugins/crawl/web_spider.py`): robots.txt
  parsing, scope checks and the visit/insert logic over crawl state;
* the retrying request executor (`backend/core/base_scanner.py`).

Network I/O is modelled by environments that supply the responses the
code would have received; `float` durations and confidences are modelled
as `ℚ`; Python strings are Lean `String`s (characters are code points;
percent-encoding is modelled at the single-byte level, so the faithful
range is code points below 256 — multi-byte UTF-8 percent-escapes are
outside the model and are excluded by hypotheses where they matter).
-/

namespace Vulnity

/-! ### Generic string helpers (Python `in`, `str.lower`, …) -/

/-- Occurrence of `pat` as a contiguous sublist of `l`
(Python's `pat in s` on strings). -/
def listContains (pat : List Char) : List Char → Bool
  | [] => pat.isPrefixOf []
  | c :: rest => pat.isPrefixOf (c :: rest) || listContains pat rest

/-- Python's `pat in s` substring test. -/
def strContains (s pat : String) : Bool :=
  listContains pat.toList s.toList

/-- Python's `s.startswith(p)` . -/
def strStartsWith (s p : String) : Bool :=
  p.toList.isPrefixOf s.toList

/-- ASCII lowering of one character (`str.lower`; the scanner's inputs
and patterns are ASCII). -/
def charLower (c : Char) : Char :=
  if 65 ≤ c.toNat && c.toNat ≤ 90 then Char.ofNat (c.toNat + 32) else c

/-- Python's `s.lower()`. -/
def strLower (s : String) : String :=
  String.mk (s.toList.map charLower)

/-- Python's `str.strip()` whitespace set. -/
def isStripChar (c : Char) : Bool :=
  c = ' ' || c = '\t' || c = '\n' || c = '\r' ||
    c = Char.ofNat 11 || c = Char.ofNat 12

/-- Python's `s.strip()`. -/
def strTrim (s : String) : String :=
  String.mk (((s.toList.dropWhile isStripChar).reverse.dropWhile
    isStripChar).reverse)

/-- Python's `s.split(sep)` for a one-character separator. -/
def splitOnChar (sep : Char) : List Char → List (List Char)
  | [] => [[]]
  | c :: rest =>
    match splitOnChar sep rest with
    | [] => if c = sep then [[], []] else [[c]]
    | p :: ps => if c = sep then [] :: p :: ps else (c :: p) :: ps

/-- Python's `s.split(sep, 1)` for a one-character separator: split at
the first occurrence, `none` when the separator does not occur. -/
def splitFirstChar (sep : Char) : List Char → Option (List Char × List Char)
  | [] => none
  | c :: rest =>
    if c = sep then some ([], rest)
    else
      match splitFirstChar sep rest with
      | none => none
      | some ab => some (c :: ab.1, ab.2)

/-- Python's `'&'.join`-style joining with a one-character separator. -/
def joinChar (sep : Char) : List (List Char) → List Char
  | [] => []
  | [p] => p
  | p :: ps => p ++ sep :: joinChar sep ps

/-! ### Percent-encoding (`urllib.parse.quote_plus` / `unquote_plus`)

`urlencode(..., doseq=True)` uses `quote_plus` with `safe=''`:
characters in `ALWAYS_SAFE` (letters, digits, `_ . - ~`) pass through,
a space becomes `+`, anything else becomes `%XX` with uppercase hex
digits.  `parse_qsl` applies the inverse `unquote_plus`.  We model one
character as one byte, which matches Python exactly for code points
below 128. -/

/-- Membership in `urllib`'s `ALWAYS_SAFE` set (letters, digits and
`_ . - ~`), phrased on code points. -/
def isAlwaysSafe (c : Char) : Bool :=
  (97 ≤ c.toNat && c.toNat ≤ 122) || (65 ≤ c.toNat && c.toNat ≤ 90) ||
    (48 ≤ c.toNat && c.toNat ≤ 57) ||
    (c.toNat = 95 || c.toNat = 46 || c.toNat = 45 || c.toNat = 126)

/-- Uppercase hexadecimal digit for a nibble. -/
def hexUpper (n : ℕ) : Char :=
  if n = 0 then '0' else if n = 1 then '1' else if n = 2 then '2'
  else if n = 3 then '3' else if n = 4 then '4' else if n = 5 then '5'
  else if n = 6 then '6' else if n = 7 then '7' else if n = 8 then '8'
  else if n = 9 then '9' else if n = 10 then 'A' else if n = 11 then 'B'
  else if n = 12 then 'C' else if n = 13 then 'D' else if n = 14 then 'E'
  else 'F'

/-- Is `c` a hexadecimal digit (either case)? -/
def isHexDigit (c : Char) : Bool :=
  (48 ≤ c.toNat && c.toNat ≤ 57) || (97 ≤ c.toNat && c.toNat ≤ 102) ||
    (65 ≤ c.toNat && c.toNat ≤ 70)

/-- Numeric value of a hexadecimal digit. -/
def hexVal (c : Char) : ℕ :=
  if 48 ≤ c.toNat && c.toNat ≤ 57 then c.toNat - 48
  else if 97 ≤ c.toNat && c.toNat ≤ 102 then c.toNat - 87
  else c.toNat - 55

/-- `quote_plus` of a single character. -/
def quoteChar (c : Char) : List Char :=
  if isAlwaysSafe c then [c]
  else if c = ' ' then ['+']
  else ['%', hexUpper (c.toNat / 16 % 16), hexUpper (c.toNat % 16)]

/-- `quote_plus` over a character list. -/
def quoteChars : List Char → List Char
  | [] => []
  | c :: rest => quoteChar c ++ quoteChars rest

/-- `quote_plus` on strings. -/
def quotePlus (s : String) : String :=
  ⟨quoteChars s.toList⟩

/-- `unquote_plus`: `+` becomes a space and `%XX` hex escapes are
decoded; malformed escapes are left untouched, exactly as in
`urllib.parse.unquote`. -/
def unquotePlusChars : List Char → List Char
  | [] => []
  | '+' :: rest => ' ' :: unquotePlusChars rest
  | '%' :: a :: b :: rest2 =>
    if isHexDigit a && isHexDigit b then
      Char.ofNat (hexVal a * 16 + hexVal b) :: unquotePlusChars rest2
    else '%' :: unquotePlusChars (a :: b :: rest2)
  | c :: rest => c :: unquotePlusChars rest

/-! ### `urllib.parse.parse_qsl` / `parse_qs` / `urlencode` -/

/-- One `name=value` chunk of `parse_qsl`: empty chunks, chunks without
`=` and chunks with an empty value are dropped (`keep_blank_values`
defaults to `False`); name and value are `unquote_plus`-decoded. -/
def parseQslPair (p : List Char) : Option (List Char × List Char) :=
  if p = [] then none
  else
    match splitFirstChar '=' p with
    | none => none
    | some nv =>
      if nv.2 = [] then none
      else some (unquotePlusChars nv.1, unquotePlusChars nv.2)

/-- `urllib.parse.parse_qsl` with default arguments: split the query on
`&` and parse each chunk. -/
def parseQsl (q : List Char) : List (List Char × List Char) :=
  (splitOnChar '&' q).filterMap parseQslPair

/-- Insertion step of `parse_qs`' dict building: append the value to an
existing key or add a fresh singleton entry. -/
def qsInsert (d : List (List Char × List (List Char))) (k : List Char)
    (v : List Char) : List (List Char × List (List Char)) :=
  if d.any (fun e => e.1 = k) then
    d.map (fun e => if e.1 = k then (e.1, e.2 ++ [v]) else e)
  else d ++ [(k, [v])]

/-- `urllib.parse.parse_qs`: group the `parse_qsl` pairs by key,
keeping first-occurrence key order (Python dicts preserve insertion
order). -/
def parseQs (q : String) : List (List Char × List (List Char)) :=
  (parseQsl q.toList).foldl (fun d kv => qsInsert d kv.1 kv.2) []

/-- Code-point lexicographic comparison, Python's `<=` on strings
(what `sorted` uses on the key list). -/
def lexLe : List Char → List Char → Bool
  | [], _ => true
  | _ :: _, [] => false
  | a :: as, b :: bs =>
    if a.toNat < b.toNat then true
    else if a.toNat = b.toNat then lexLe as bs
    else false

/-- Key order on the grouped query entries. -/
def keyLe (a b : List Char × List (List Char)) : Prop :=
  lexLe a.1 b.1 = true

instance : DecidableRel keyLe := fun a b =>
  inferInstanceAs (Decidable (lexLe a.1 b.1 = true))

/-- `{k: query_params[k] for k in sorted(query_params.keys())}`. -/
def sortQueryKeys (l : List (List Char × List (List Char))) :
    List (List Char × List (List Char)) :=
  List.insertionSort keyLe l

/-- One `quote_plus(k) + "=" + quote_plus(v)` chunk of `urlencode`. -/
def encodePair (k v : List Char) : List Char :=
  quoteChars k ++ '=' :: quoteChars v

/-- All chunks of `urlencode(d, doseq=True)`: one per value, in dict
order. -/
def encodedChunks (l : List (List Char × List (List Char))) :
    List (List Char) :=
  l.flatMap (fun kv => kv.2.map (fun v => encodePair kv.1 v))

/-- `urllib.parse.urlencode(d, doseq=True)`: the chunks joined with
`&`. -/
def urlencodeSeq (l : List (List Char × List (List Char))) : List Char :=
  joinChar '&' (encodedChunks l)

/-! ### App-stack scanner (`backend/app/services/scanner/sql_injection.py`)

Responses are what `_make_baseline_request`/`_make_malicious_request`
package out of `httpx` replies: the body text, the status code and the
elapsed time; `content_length` is `len(response.text)`, which we keep as
a derived function. -/

structure AppResponse where
  content : String
  statusCode : ℕ
  responseTime : ℚ
deriving Repr, DecidableEq

/-- `content_length` field of the response dicts: `len(response.text)`. -/
def contentLength (r : AppResponse) : ℕ := r.content.length

/-- A SQL error pattern: of the eight patterns in
`settings.SQLI_ERROR_PATTERNS` only `"SQL syntax.*error"` uses a regex
metacharacter (`.*`, any run without a newline); all others are literal
substrings, so we represent a pattern as either a literal or a
"literal, gap, literal" form. -/
inductive ErrPattern where
  | lit (s : String)
  | seqDotStar (p1 p2 : String)
deriving Repr, DecidableEq

/-- The original pattern text (what `_detect_error_based` appends to
`evidence['detected_errors']`). -/
def ErrPattern.text : ErrPattern → String
  | .lit s => s
  | .seqDotStar a b => a ++ ".*" ++ b

/-- `settings.SQLI_ERROR_PATTERNS` (also the fallback list inlined in
`SQLInjectionScanner.__init__`; the two lists coincide). -/
def sqliErrorPatterns : List ErrPattern :=
  [.seqDotStar "SQL syntax" "error",
   .lit "mysqli_sql_exception",
   .lit "You have an error in your SQL syntax",
   .lit "Warning: mysql_",
   .lit "mysql_fetch_array",
   .lit "mysql_num_rows",
   .lit "ORA-01756",
   .lit "Microsoft OLE DB Provider"]

/-- Does `p2` occur after a newline-free gap starting here?  (the `.*`
part of `re.search`, where `.` does not match `\n`). -/
def gapThen (p2 : List Char) : List Char → Bool
  | [] => p2.isPrefixOf []
  | c :: rest => p2.isPrefixOf (c :: rest) || (c ≠ '\n' && gapThen p2 rest)

/-- `re.search(p1 ++ ".*" ++ p2, s)`: some position starts with `p1`,
followed (on the same line) by `p2`. -/
def dotStarSearch (p1 p2 : List Char) : List Char → Bool
  | [] => p1.isPrefixOf [] && gapThen p2 []
  | c :: rest =>
    (p1.isPrefixOf (c :: rest) && gapThen p2 (List.drop p1.length (c :: rest)))
      || dotStarSearch p1 p2 rest

/-- `re.search(pattern.lower(), loweredContent)` for one pattern. -/
def matchPattern (loweredContent : String) : ErrPattern → Bool
  | .lit s => strContains loweredContent (strLower s)
  | .seqDotStar a b =>
    dotStarSearch (strLower a).toList (strLower b).toList
      loweredContent.toList

/-- The `sql_indicators` keyword list of `_detect_error_based`. -/
def sqlIndicators : List String :=
  ["syntax error", "mysql", "sql", "database", "table", "column",
   "select", "union", "where", "from", "error", "warning"]

/-- `abs(len(a) - len(b))` on natural lengths. -/
def lenDiff (a b : ℕ) : ℕ := ((a : ℤ) - b).natAbs

/-- `SQLInjectionScanner._detect_error_based`.  Returns
`(is_vulnerable, confidence, detected_errors)`; the rest of the
evidence dict is not read by any checked property and is elided. -/
def detectErrorBased (baseline malicious : AppResponse) :
    Bool × ℚ × List String :=
  let mc := strLower malicious.content
  let bc := strLower baseline.content
  let patErrs := (sqliErrorPatterns.filter (matchPattern mc)).map ErrPattern.text
  let statusChanged :=
    malicious.statusCode ≠ baseline.statusCode && malicious.statusCode ≥ 500
  let contentLengthDiff := lenDiff mc.length bc.length
  let indicators := sqlIndicators.filter
    (fun i => strContains mc i && !strContains bc i)
  let detectedErrors :=
    patErrs ++ indicators.map (fun i => "SQL indicator: " ++ i)
  let indicatorFound := indicators ≠ []
  if detectedErrors ≠ [] || statusChanged || indicatorFound
      || contentLengthDiff > 50 then
    let confidence : ℚ :=
      if detectedErrors ≠ [] then 9/10
      else if statusChanged then 7/10
      else if indicatorFound then 6/10
      else 1/2
    (true, confidence, detectedErrors)
  else (false, 0, [])

/-- Evidence dict of `_detect_boolean_based`. -/
structure BoolEvidence where
  baselineLength : ℕ
  maliciousLength : ℕ
  lengthDifference : ℕ
  lengthRatio : ℚ
deriving Repr, DecidableEq

/-- `SQLInjectionScanner._detect_boolean_based`.  The evidence dict is
built once before the branching and every branch returns it, so it is
factored out of the verdict/confidence case split. -/
def detectBooleanBased (baseline malicious : AppResponse)
    (payload : String) : Bool × ℚ × BoolEvidence :=
  let baselineLength := contentLength baseline
  let maliciousLength := contentLength malicious
  let lengthDifference := lenDiff maliciousLength baselineLength
  let lengthRatio : ℚ :=
    if baselineLength > 0 then (maliciousLength : ℚ) / baselineLength else 0
  let evidence : BoolEvidence :=
    ⟨baselineLength, maliciousLength, lengthDifference, lengthRatio⟩
  let vc : Bool × ℚ :=
    if strContains payload "OR" && strContains payload "1'='1" then
      if lengthRatio > 3/2 then (true, 4/5)
      else if lengthDifference > 10 then (true, 7/10)
      else (false, 0)
    else if strContains payload "AND" then
      if strContains payload "1'='1" then
        if lengthRatio > 4/5 && lengthRatio < 6/5 then (true, 7/10)
        else (false, 0)
      else if strContains payload "1'='2" then
        if lengthRatio < 1/2 then (true, 7/10)
        else (false, 0)
      else (false, 0)
    else (false, 0)
  (vc.1, vc.2, evidence)

/-- The `union_indicators` list of `_detect_union_based`. -/
def unionIndicators : List String :=
  ["mysql", "version()", "database()", "user()", "information_schema",
   "table_name", "column_name"]

/-- `re.search(r"\d+\.\d+\.\d+", s)` starting at the current position:
one-or-more digits, a dot, digits, a dot, digits. -/
def versionHere (s : List Char) : Bool :=
  let d1 := s.takeWhile Char.isDigit
  let rest1 := s.dropWhile Char.isDigit
  if d1 = [] then false
  else match rest1 with
    | '.' :: rest2 =>
      let d2 := rest2.takeWhile Char.isDigit
      let rest3 := rest2.dropWhile Char.isDigit
      if d2 = [] then false
      else match rest3 with
        | '.' :: rest4 => !(rest4.takeWhile Char.isDigit).isEmpty
        | _ => false
    | _ => false

/-- `re.search(r"\d+\.\d+\.\d+", s)` anywhere. -/
def versionSearch : List Char → Bool
  | [] => false
  | c :: rest => versionHere (c :: rest) || versionSearch rest

/-- `SQLInjectionScanner._detect_union_based` (evidence elided down to
the `detected_data` list). -/
def detectUnionBased (baseline malicious : AppResponse)
    (_payload : String) : Bool × ℚ × List String :=
  let mc := strLower malicious.content
  let indicatorData := unionIndicators.filter (fun i => strContains mc i)
  let versionData :=
    (if versionSearch mc.toList then ["version_pattern: digits"] else []) ++
    (if strContains mc "mariadb" then ["version_pattern: mariadb"] else []) ++
    (if strContains mc "mysql" then ["version_pattern: mysql"] else [])
  let detectedData := indicatorData ++ versionData
  let lengthDifference :=
    lenDiff (contentLength malicious) (contentLength baseline)
  let significantChange :=
    lengthDifference > 20
      || malicious.statusCode ≠ baseline.statusCode
      || strContains mc "null"
  if detectedData ≠ [] || significantChange then
    let confidence : ℚ :=
      if detectedData ≠ [] then 9/10
      else if significantChange then 6/10
      else 1/2
    (true, confidence, detectedData)
  else (false, 0, [])

/-- `SQLInjectionScanner._detect_time_based` (app stack): thresholds on
the elapsed-time difference between probe and baseline. -/
def detectTimeBased (baseline malicious : AppResponse) : Bool × ℚ :=
  let timeDiff := malicious.responseTime - baseline.responseTime
  if timeDiff > 4 then (true, 9/10)
  else if timeDiff > 2 then (true, 7/10)
  else if timeDiff > 1 then (true, 1/2)
  else (false, 0)

/-- Detection sub-type tags of the payload catalog. -/
inductive InjType where
  | error_based
  | boolean_based
  | union_based
  | time_based
deriving Repr, DecidableEq

/-- Risk levels (`VulnerabilityRisk`; the enum lives in
`app/models/vulnerability.py`, whose levels the spec fixes as
critical/high/medium/low/info). -/
inductive Risk where
  | critical
  | high
  | medium
  | low
  | info
deriving Repr, DecidableEq

/-- One entry of the static payload catalog. -/
structure PayloadInfo where
  name : String
  payload : String
  ptype : InjType
  risk : Risk
deriving Repr, DecidableEq

/-- `SQLInjectionScanner._load_sql_payloads`: the ten static payloads. -/
def sqlPayloads : List PayloadInfo :=
  [⟨"Single Quote Error Test", "'", .error_based, .high⟩,
   ⟨"Double Quote Error Test", "\"", .error_based, .high⟩,
   ⟨"Boolean OR True", "1' OR '1'='1", .boolean_based, .high⟩,
   ⟨"Boolean AND True", "1' AND '1'='1", .boolean_based, .medium⟩,
   ⟨"Boolean AND False", "1' AND '1'='2", .boolean_based, .medium⟩,
   ⟨"Union Select Version", "1' UNION SELECT null,version()--", .union_based, .critical⟩,
   ⟨"Union Select Database", "1' UNION SELECT null,database()--", .union_based, .critical⟩,
   ⟨"Union Select User", "1' UNION SELECT null,user()--", .union_based, .critical⟩,
   ⟨"Time-based Blind MySQL", "1' AND SLEEP(5)--", .time_based, .high⟩,
   ⟨"Time-based Blind PostgreSQL", "1'; SELECT pg_sleep(5)--", .time_based, .high⟩]

/-- `settings.SCANNER_CONFIDENCE_THRESHOLD` (0.7 in
`app/config/settings.py`; the `getattr` fallback 0.5 is never used). -/
def scannerConfidenceThreshold : ℚ := 7/10

/-- A finding dict as built by `_analyze_responses` (the fields the
checked properties read). -/
structure AppFinding where
  title : String
  strategy : InjType
  risk : Risk
  endpoint : String
  parameter : String
  payload : String
  confidence : ℚ
deriving Repr, DecidableEq

/-- `SQLInjectionScanner._analyze_responses`: dispatch on the payload's
strategy, then emit a finding iff flagged and the confidence clears the
configured threshold. -/
def analyzeResponses (baseline malicious : AppResponse) (pi : PayloadInfo)
    (baseUrl : String) (paramName : String) : Option AppFinding :=
  let vc : Bool × ℚ :=
    match pi.ptype with
    | .error_based =>
      let r := detectErrorBased baseline malicious; (r.1, r.2.1)
    | .boolean_based =>
      let r := detectBooleanBased baseline malicious pi.payload; (r.1, r.2.1)
    | .union_based =>
      let r := detectUnionBased baseline malicious pi.payload; (r.1, r.2.1)
    | .time_based => detectTimeBased baseline malicious
  if vc.1 && scannerConfidenceThreshold ≤ vc.2 then
    some ⟨"SQL Injection - " ++ pi.name, pi.ptype, pi.risk, baseUrl,
      paramName, pi.payload, vc.2⟩
  else none

/-- `SQLInjectionScanner._extract_parameters`, step 1: GET parameters of
the query string, each reduced to its first value (`values[0]`). -/
def extractParameters (query : String) : List (String × String) :=
  (parseQs query).map (fun kv => (String.mk kv.1, String.mk (kv.2.headD [])))

/-- The response environment: what the target returns for a
(parameter, payload) probe — first component the baseline response,
second the probe response. -/
def AppEnv := String → String → AppResponse × AppResponse

/-- `SQLInjectionScanner.scan`'s nested loop: every parameter is tested
against every payload of the catalog, and every non-`None` result of
`_test_sql_injection` is appended to the scan's vulnerability list.
There is no skip after a successful payload. -/
def appScan (targetUrl : String) (params : List (String × String))
    (env : AppEnv) : List AppFinding :=
  params.flatMap (fun p =>
    sqlPayloads.filterMap (fun pi =>
      let br := (env p.1 pi.payload).1
      let mr := (env p.1 pi.payload).2
      analyzeResponses br mr pi targetUrl p.1))

/-! ### Plugin-stack scanner (`backend/plugins/audit/sqli.py`)

`_test_time_based` measures 3 baseline samples, derives
`threshold = mean + 3·stddev + base_delay` and walks the per-dialect
payload table; a probe is reported only when its elapsed time reaches
the threshold **and** a verification request does too, except in the
aggressive fallback phase, which skips the verification.  Elapsed times
are supplied by an environment (one `(probe, verification)` pair per
standard payload, one probe time per aggressive payload). -/

/-- `base_delay = 2` seconds. -/
def pluginBaseDelay : ℚ := 2

/-- Mean of the 3 baseline samples. -/
def timeMean (t1 t2 t3 : ℚ) : ℚ := (t1 + t2 + t3) / 3

/-- Population variance of the 3 baseline samples
(the code takes `variance ** 0.5` as the standard deviation). -/
def timeVariance (t1 t2 t3 : ℚ) : ℚ :=
  ((t1 - timeMean t1 t2 t3) ^ 2 + (t2 - timeMean t1 t2 t3) ^ 2 +
    (t3 - timeMean t1 t2 t3) ^ 2) / 3

/-- `threshold = avg_baseline + 3 * std_dev + base_delay`. -/
def timeThreshold (mean stdDev : ℚ) : ℚ :=
  mean + 3 * stdDev + pluginBaseDelay

/-- A vulnerability recorded by `_test_time_based`: which payload fired,
its probe's elapsed time, and whether it came from the aggressive
fallback phase. -/
structure TimeFinding where
  index : ℕ
  elapsed : ℚ
  aggressive : Bool
deriving Repr, DecidableEq

/-- The standard-payload loop: probe; on `elapsed_time >= threshold`
verify, and on `verification_time >= threshold` record and return;
otherwise fall through to the next payload. -/
def timeStdLoop (threshold : ℚ) : ℕ → List (ℚ × ℚ) → Option TimeFinding
  | _, [] => none
  | i, pv :: rest =>
    if threshold ≤ pv.1 then
      if threshold ≤ pv.2 then some ⟨i, pv.1, false⟩
      else timeStdLoop threshold (i + 1) rest
    else timeStdLoop threshold (i + 1) rest

/-- The aggressive-payload loop: `elapsed_time >= threshold` records and
returns, with no verification request. -/
def timeAggrLoop (threshold : ℚ) : ℕ → List ℚ → Option TimeFinding
  | _, [] => none
  | i, p :: rest =>
    if threshold ≤ p then some ⟨i, p, true⟩
    else timeAggrLoop threshold (i + 1) rest

/-- `_test_time_based` after the baseline measurement: the standard
loop, then (only if it produced nothing) the aggressive loop. -/
def testTimeBasedPlugin (threshold : ℚ) (std : List (ℚ × ℚ))
    (aggr : List ℚ) : Option TimeFinding :=
  match timeStdLoop threshold 0 std with
  | some f => some f
  | none => timeAggrLoop threshold 0 aggr

/-- `self.test_payloads` of the plugin scanner. -/
def testPayloadsPlugin : List String :=
  ["' OR '1'='1",
   "' OR '1'='1' -- ",
   "\" OR \"1\"=\"1",
   "\" OR \"1\"=\"1\" -- ",
   "') OR ('1'='1",
   "\") OR (\"1\"=\"1",
   "' OR '1'='1' /*",
   "'; DROP TABLE users; --",
   "1' OR '1' = '1",
   "1\" OR \"1\" = \"1",
   "1' UNION SELECT NULL,NULL,NULL-- ",
   "1' UNION SELECT NULL,NULL-- ",
   "1' UNION SELECT NULL-- ",
   "1' UNION SELECT user(),database(),version()-- ",
   "1' AND 1=1 UNION SELECT user,password FROM users-- "]

/-- `_test_error_based`: walk `test_payloads`, skipping time-delay
payloads; a response whose body contains a SQL error adds one
vulnerability and returns.  The SQL-error predicate
(`_contains_sql_error`, a 40-regex library plus JSON unwrapping) and
the response bodies are supplied by the environment; `none` stands for
a request that raised (caught and skipped). -/
def pluginErrorLoop (sqlError : String → Bool) (bodies : ℕ → Option String) :
    ℕ → List String → List (ℕ × String)
  | _, [] => []
  | i, p :: rest =>
    if strContains p "SLEEP" || strContains p "DELAY"
        || strContains p "pg_sleep" then
      pluginErrorLoop sqlError bodies (i + 1) rest
    else
      match bodies i with
      | none => pluginErrorLoop sqlError bodies (i + 1) rest
      | some body =>
        if body ≠ "" && sqlError body then [(i, p)]
        else pluginErrorLoop sqlError bodies (i + 1) rest

/-- `_test_error_based` over the plugin's payload table. -/
def testErrorBasedPlugin (sqlError : String → Bool)
    (bodies : ℕ → Option String) : List (ℕ × String) :=
  pluginErrorLoop sqlError bodies 0 testPayloadsPlugin

/-! ### `_normalize_url` (`backend/plugins/audit/sqli.py`)

We embed a URL as its `urlparse` six-tuple; `urlparse`/`urlunparse` are
the external boundary of the model. -/

structure UrlParts where
  scheme : String
  netloc : String
  path : String
  params : String
  query : String
  fragment : String
deriving Repr, DecidableEq

/-- `SQLInjectionScanner._normalize_url`: default the empty path to
`/`, re-encode the query with keys sorted, keep everything else
(including the fragment) unchanged. -/
def normalizeUrl (u : UrlParts) : UrlParts :=
  let path := if u.path = "" then "/" else u.path
  let normalizedQuery :=
    if u.query ≠ "" then
      String.mk (urlencodeSeq (sortQueryKeys (parseQs u.query)))
    else ""
  ⟨u.scheme, u.netloc, path, u.params, normalizedQuery, u.fragment⟩

/-! ### Request executor retry policy (`backend/core/base_scanner.py`)

`BaseScanner.send_request` is decorated with
`tenacity.retry(stop=stop_after_attempt(3),
wait=wait_exponential(multiplier=1, min=1, max=10),
retry=retry_if_exception_type((aiohttp.ClientError,
asyncio.TimeoutError)), reraise=True)`.  The attempt environment maps
the (1-based) attempt number to its outcome; `ok status` is any HTTP
response — `aiohttp` does not raise on 4xx/5xx status codes, so those
come back as `ok`. -/

inductive ReqOutcome where
  | ok (status : ℕ)
  | clientError
  | timeoutError
  | otherError
deriving Repr, DecidableEq

/-- `retry_if_exception_type((aiohttp.ClientError, asyncio.TimeoutError))`. -/
def retryable : ReqOutcome → Bool
  | .clientError => true
  | .timeoutError => true
  | _ => false

/-- `tenacity.wait_exponential(multiplier, min, max)` evaluated after
the attempt numbered `attemptNumber` failed:
`clamp(multiplier * 2 ** attempt_number)` into `[min, max]`. -/
def waitExponential (multiplier minW maxW : ℚ) (attemptNumber : ℕ) : ℚ :=
  max (max 0 minW) (min (multiplier * 2 ^ attemptNumber) maxW)

/-- The retry loop: run attempts starting at `attempt`; a retryable
failure before attempt `stopAfter` sleeps the exponential wait and
retries, anything else (success, non-retryable error, or the attempt
budget exhausted with `reraise=True`) is returned.  Output: final
outcome, number of the final attempt, and the list of sleeps
performed.  `fuel` only bounds the recursion and is chosen `≥ stopAfter`. -/
def retryGo (env : ℕ → ReqOutcome) (stopAfter : ℕ) :
    ℕ → ℕ → ReqOutcome × ℕ × List ℚ
  | attempt, 0 => (env attempt, attempt, [])
  | attempt, fuel + 1 =>
    let o := env attempt
    if retryable o && attempt < stopAfter then
      let r := retryGo env stopAfter (attempt + 1) fuel
      (r.1, r.2.1, waitExponential 1 1 10 attempt :: r.2.2)
    else (o, attempt, [])

/-- `send_request`'s retry wrapper with the decorator's configuration. -/
def sendRequestRetry (env : ℕ → ReqOutcome) : ReqOutcome × ℕ × List ℚ :=
  retryGo env 3 1 3

/-! ### Crawler (`backend/plugins/crawl/web_spider.py`)

A URL is embedded as its network location, path and query (the
components the spider's checks read; `urlparse`, `urljoin` and
`tldextract` are the external boundary).  `tldextract`'s
subdomain+domain+suffix recombination — exactly what `_is_same_site`
rebuilds on both sides of its comparison — is modelled as the
`regDomain` function of the configuration. -/

structure CrawlUrl where
  netloc : String
  path : String
  query : String
deriving Repr, DecidableEq

/-- `self.ignored_extensions`. -/
def ignoredExtensions : List String :=
  ["jpg", "jpeg", "png", "gif", "bmp", "ico", "svg", "webp",
   "css", "less", "scss", "sass",
   "js", "map", "json", "xml", "woff", "woff2", "ttf", "eot",
   "pdf", "doc", "docx", "xls", "xlsx", "ppt", "pptx",
   "zip", "rar", "tar", "gz", "7z",
   "mp3", "mp4", "avi", "mov", "wmv", "flv", "ogg", "webm",
   "exe", "dll", "bin", "dat", "dmg", "iso",
   "jar", "war", "ear",
   "swf", "torrent"]

/-- `self.ignored_dirs`. -/
def ignoredDirs : List String :=
  ["__MACOSX",
   ".git", ".svn", ".hg", ".bzr", ".idea", ".vscode",
   "node_modules", "bower_components", "vendor",
   "logs", "log", "temp", "tmp",
   "cache", "caches"]

/-- `line.split(':', 1)` — `none` when the line has no colon. -/
def splitFirstColon (l : String) : Option (String × String) :=
  match splitFirstChar ':' l.toList with
  | none => none
  | some ab => some (String.mk ab.1, String.mk ab.2)

/-- Add an agent key to the rule dict if absent
(`if current_agent not in self.robots_txt_rules`). -/
def robotsAddAgent (rules : List (String × List String)) (agent : String) :
    List (String × List String) :=
  if rules.any (fun e => e.1 = agent) then rules else rules ++ [(agent, [])]

/-- Append a disallow value under an agent key. -/
def robotsAddDisallow (rules : List (String × List String))
    (agent value : String) : List (String × List String) :=
  rules.map (fun e => if e.1 = agent then (e.1, e.2 ++ [value]) else e)

/-- Line-by-line loop of `_parse_robots_txt`. -/
def parseRobotsLines :
    List String → String → List (String × List String) →
      List (String × List String)
  | [], _, rules => rules
  | line :: rest, agent, rules =>
    let l := strTrim line
    if l = "" || strStartsWith l "#" then parseRobotsLines rest agent rules
    else
      match splitFirstColon l with
      | none => parseRobotsLines rest agent rules
      | some dv =>
        let directive := strTrim (strLower dv.1)
        let value := strTrim dv.2
        if directive = "user-agent" then
          parseRobotsLines rest value (robotsAddAgent rules value)
        else if directive = "disallow" then
          if value ≠ "" then
            parseRobotsLines rest agent (robotsAddDisallow rules agent value)
          else parseRobotsLines rest agent rules
        else parseRobotsLines rest agent rules

/-- `WebSpider._parse_robots_txt`: starts from `{"*": []}` with `*` as
the current agent. -/
def parseRobotsTxt (robotsTxt : String) : List (String × List String) :=
  parseRobotsLines ((splitOnChar '\n' robotsTxt.toList).map String.mk)
    "*" [("*", [])]

/-- `self.robots_txt_rules.get("*", [])`. -/
def robotsStarRules (rules : List (String × List String)) : List String :=
  ((rules.find? (fun e => e.1 = "*")).map (fun e => e.2)).getD []

/-- Crawler configuration: scan options plus the state
`_check_robots_txt` leaves behind, plus the seed-derived scope data. -/
structure CrawlConfig where
  followRobots : Bool
  robotsChecked : Bool
  robotsRules : List (String × List String)
  baseDomain : String
  mainDomain : String
  regDomain : String → String

/-- `WebSpider._is_allowed_by_robots`. -/
def isAllowedByRobots (cfg : CrawlConfig) (u : CrawlUrl) : Bool :=
  if !cfg.followRobots then true
  else if !cfg.robotsChecked || cfg.robotsRules = [] then true
  else !(robotsStarRules cfg.robotsRules).any
    (fun d => strStartsWith u.path d)

/-- `WebSpider._is_same_site`: the recombined `tldextract` domain of the
URL equals the one computed for the seed. -/
def isSameSite (cfg : CrawlConfig) (u : CrawlUrl) : Bool :=
  cfg.regDomain u.netloc = cfg.mainDomain

/-- `WebSpider._should_visit`. -/
def shouldVisit (cfg : CrawlConfig) (u : CrawlUrl) : Bool :=
  if !isAllowedByRobots cfg u then false
  else if u.netloc ≠ "" && u.netloc ≠ cfg.baseDomain then false
  else
    let path := (strLower u.path).toList
    if path.contains '.' &&
        ((splitOnChar '.' path).getLastD []).asString ∈ ignoredExtensions
        then false
    else if (splitOnChar '/' path).any
        (fun part => part.asString ∈ ignoredDirs) then false
    else true

/-- What one fetched page yields: whether the response was HTML, the
candidate link URLs after `urljoin` resolution and the
skip/fragment/slash clean-up of `_make_absolute_url` (its same-site
filter is applied below, in `visitUrl`), and the resolved form-action
URLs from `extract_forms`. -/
structure PageData where
  isHtml : Bool
  links : List CrawlUrl
  forms : List CrawlUrl

/-- Crawl state: `visited_urls`, `found_urls`, and a log of the URLs
actually fetched with `send_request` (for the robots property). -/
structure CrawlState where
  visited : List CrawlUrl
  found : List CrawlUrl
  fetched : List CrawlUrl
deriving Repr, DecidableEq

/-- The link loop of `_visit_url`: keep a link only if it survives
`_make_absolute_url`'s same-site check and is new and `_should_visit`
allows it. -/
def addLinks (cfg : CrawlConfig) : CrawlState → List CrawlUrl → CrawlState
  | st, [] => st
  | st, l :: rest =>
    if isSameSite cfg l && l ∉ st.found && l ∉ st.visited
        && shouldVisit cfg l then
      addLinks cfg { st with found := st.found ++ [l] } rest
    else addLinks cfg st rest

/-- The form loop of `_visit_url`: a form's action URL is added to
`found_urls` whenever it is new — with no same-site or `_should_visit`
check. -/
def addForms : CrawlState → List CrawlUrl → CrawlState
  | st, [] => st
  | st, a :: rest =>
    if a ∉ st.found && a ∉ st.visited then
      addForms { st with found := st.found ++ [a] } rest
    else addForms st rest

/-- `WebSpider._visit_url`. -/
def visitUrl (cfg : CrawlConfig) (env : CrawlUrl → PageData)
    (st : CrawlState) (u : CrawlUrl) : CrawlState :=
  if u ∈ st.visited then st
  else
    let st1 := { st with visited := st.visited ++ [u] }
    if !isAllowedByRobots cfg u then st1
    else
      let st2 := { st1 with fetched := st1.fetched ++ [u] }
      let page := env u
      if page.isHtml then
        let st3 := addLinks cfg st2 page.links
        addForms st3 page.forms
      else st2

/-- One depth level of `scan`: visit every URL of the batch that passes
`_should_visit` (the `gather` of visit tasks, serialized). -/
def visitList (cfg : CrawlConfig) (env : CrawlUrl → PageData) :
    CrawlState → List CrawlUrl → CrawlState
  | st, [] => st
  | st, u :: rest =>
    if shouldVisit cfg u then visitList cfg env (visitUrl cfg env st u) rest
    else visitList cfg env st rest

/-- The depth loop of `WebSpider.scan`: at each depth take the
not-yet-visited found URLs, trim them to the remaining `max_urls`
budget, visit them, and stop when nothing is left, the budget is
exhausted, or `max_depth` is passed (`depthsLeft = max_depth + 1`). -/
def crawlLoop (cfg : CrawlConfig) (env : CrawlUrl → PageData)
    (maxUrls : ℕ) : ℕ → ℕ → CrawlState → CrawlState
  | 0, _, st => st
  | depthsLeft + 1, processed, st =>
    let toVisit := st.found.filter (fun u => u ∉ st.visited)
    if toVisit = [] then st
    else
      let batch := toVisit.take (maxUrls - processed)
      let st' := visitList cfg env st batch
      let processed' := processed + batch.length
      if maxUrls ≤ processed' then st'
      else crawlLoop cfg env maxUrls depthsLeft processed' st'

/-- `WebSpider.scan`: seed the found set, run the depth loop, and
return the found URLs filtered once more through `_should_visit`
(together with the final state, which the invariants below inspect). -/
def crawlScan (cfg : CrawlConfig) (env : CrawlUrl → PageData)
    (seed : CrawlUrl) (maxDepth maxUrls : ℕ) :
    List CrawlUrl × CrawlState :=
  let st0 : CrawlState := ⟨[], [seed], []⟩
  let stF := crawlLoop cfg env maxUrls (maxDepth + 1) 0 st0
  (stF.found.filter (shouldVisit cfg), stF)

/-- The flattened `(key, value)` pairs of a grouped query dict, in
dict order — exactly what `parse_qsl` yields on the `urlencode` of the
dict. -/
def pairsOf (l : List (List Char × List (List Char))) :
    List (List Char × List Char) :=
  l.flatMap (fun kv => kv.2.map (fun v => (kv.1, v)))

/-- Well-formedness of a grouped query entry as produced by `parse_qs`:
at least one value, single-byte key characters, and non-empty values of
single-byte characters. -/
def queryEntryOk (e : List Char × List (List Char)) : Prop :=
  e.2 ≠ [] ∧ (∀ c ∈ e.1, c.toNat < 256) ∧
    ∀ v ∈ e.2, v ≠ [] ∧ ∀ c ∈ v, c.toNat < 256

/-- Concrete crawler configuration for the C3 scenarios: seed domain
`host.com`, no robots restrictions; the `tldextract` recombination is
instantiated with the identity on the network location. -/
def c3Cfg : CrawlConfig :=
  ⟨true, true, [("*", [])], "host.com", "host.com", fun s => s⟩

/-- Concrete page environment for C3: the seed page is HTML, links to
`/a` on the same host, and carries a form whose action resolves to
`other.com` — a different registrable domain. -/
def c3Env : CrawlUrl → PageData := fun u =>
  if u = ⟨"host.com", "/", ""⟩ then
    ⟨true, [⟨"host.com", "/a", ""⟩], [⟨"other.com", "/steal", ""⟩]⟩
  else ⟨false, [], []⟩

/-- Concrete crawler configuration for C7: rules parsed from a
robots.txt that disallows `/admin` for every user agent. -/
def c7Cfg : CrawlConfig :=
  ⟨true, true, parseRobotsTxt "User-agent: *\nDisallow: /admin",
    "host.com", "host.com", fun s => s⟩

/-- Concrete page environment for C7: the seed page links to the
disallowed `/admin/secret` page. -/
def c7Env : CrawlUrl → PageData := fun u =>
  if u = ⟨"host.com", "/", ""⟩ then
    ⟨true, [⟨"host.com", "/admin/secret", ""⟩], []⟩
  else ⟨false, [], []⟩

/-! ## Helper lemmas -/

theorem listContains_infix_iff (pat l : List Char) :
    listContains pat l = true ↔ pat <:+: l := by
  induction l with
  | nil => simp [listContains, List.isPrefixOf_iff_prefix]
  | cons c rest ih =>
    simp [listContains, List.isPrefixOf_iff_prefix, List.infix_cons_iff, ih]

theorem toList_strLower (s : String) :
    (strLower s).toList = s.toList.map charLower := rfl

theorem strContains_strLower {s pat : String}
    (h : strContains s pat = true) :
    strContains (strLower s) (strLower pat) = true := by
  rw [strContains] at h ⊢
  rw [listContains_infix_iff] at h ⊢
  rw [toList_strLower, toList_strLower]
  exact h.map charLower

/-! ## C4: error-based detection on the MySQL syntax-error message -/

/-- C4: for every probe response whose body contains the string
`"You have an error in your SQL syntax"`, `_detect_error_based`
reports vulnerable with confidence 0.9 (hence ≥ 0.8), regardless of the
probe's HTTP status code and regardless of the baseline response. -/
theorem error_based_flags_sql_syntax_message
    (baseline malicious : AppResponse)
    (h : strContains malicious.content
      "You have an error in your SQL syntax" = true) :
    (detectErrorBased baseline malicious).1 = true ∧
    (detectErrorBased baseline malicious).2.1 = 9/10 ∧
    (4/5 : ℚ) ≤ (detectErrorBased baseline malicious).2.1 := by
  have hpat : matchPattern (strLower malicious.content)
      (ErrPattern.lit "You have an error in your SQL syntax") = true := by
    simpa [matchPattern] using strContains_strLower h
  have hmem : ErrPattern.lit "You have an error in your SQL syntax" ∈
      sqliErrorPatterns.filter (matchPattern (strLower malicious.content)) :=
    List.mem_filter.2 ⟨by simp [sqliErrorPatterns], hpat⟩
  have hfil : sqliErrorPatterns.filter
      (matchPattern (strLower malicious.content)) ≠ [] :=
    List.ne_nil_of_mem hmem
  have hne : (sqliErrorPatterns.filter
        (matchPattern (strLower malicious.content))).map ErrPattern.text ++
      (sqlIndicators.filter (fun i =>
        strContains (strLower malicious.content) i &&
          !strContains (strLower baseline.content) i)).map
        (fun i => "SQL indicator: " ++ i) ≠ [] := by
    simp [hfil]
  unfold detectErrorBased
  simp only [hne, ne_eq, not_false_eq_true, decide_True, Bool.true_or, if_true,
    if_pos]
  norm_num

/-- Witness for C4 at a concrete probe. -/
theorem error_based_flags_sql_syntax_message_witness :
    strContains "<b>Fatal</b>: You have an error in your SQL syntax near ''1'''"
      "You have an error in your SQL syntax" = true ∧
    (detectErrorBased ⟨"First name: admin", 200, 0⟩
      ⟨"<b>Fatal</b>: You have an error in your SQL syntax near ''1'''", 200, 0⟩).1
      = true ∧
    (4/5 : ℚ) ≤ (detectErrorBased ⟨"First name: admin", 200, 0⟩
      ⟨"<b>Fatal</b>: You have an error in your SQL syntax near ''1'''", 200, 0⟩).2.1 :=
  ⟨by decide,
   (error_based_flags_sql_syntax_message _ _ (by decide)).1,
   (error_based_flags_sql_syntax_message _ _ (by decide)).2.2⟩

/-! ## C5: boolean-based OR-true detection -/

/-- C5: for an OR-true boolean payload, a probe/baseline length ratio
above 1.5 flags vulnerable with confidence 0.8; otherwise an absolute
length increase of more than 10 bytes flags vulnerable with confidence
0.7; in particular baseline length 11 and probe length 33 is flagged
with confidence 0.8 > 0.6. -/
theorem boolean_or_true_detection (baseline malicious : AppResponse)
    (payload : String) (D : Bool × ℚ × BoolEvidence)
    (hD : detectBooleanBased baseline malicious payload = D)
    (hOR : strContains payload "OR" = true)
    (h11 : strContains payload "1'='1" = true) :
    ((3/2 : ℚ) < D.2.2.lengthRatio → D.1 = true ∧ D.2.1 = 4/5) ∧
    (¬ (3/2 : ℚ) < D.2.2.lengthRatio →
      contentLength baseline + 10 < contentLength malicious →
      D.1 = true ∧ D.2.1 = 7/10) ∧
    (contentLength baseline = 11 → contentLength malicious = 33 →
      D.1 = true ∧ D.2.1 = 4/5 ∧ (3/5 : ℚ) < D.2.1) := by
  subst hD
  unfold detectBooleanBased
  simp only [hOR, h11, Bool.and_self, if_true]
  refine ⟨?_, ?_, ?_⟩
  · intro hr
    rw [if_pos hr]
    exact ⟨rfl, rfl⟩
  · intro hr hinc
    have h2 : lenDiff (contentLength malicious) (contentLength baseline) > 10 := by
      simp only [lenDiff]
      omega
    rw [if_neg hr, if_pos h2]
    exact ⟨rfl, rfl⟩
  · intro hb hm
    rw [hb, hm]
    norm_num

/-- Witness for C5: the catalog's OR-true payload, baseline length 11,
probe length 33. -/
theorem boolean_or_true_detection_witness :
    strContains "1' OR '1'='1" "OR" = true ∧
    strContains "1' OR '1'='1" "1'='1" = true ∧
    contentLength ⟨"aaaaabbbbb1", 200, 0⟩ = 11 ∧
    contentLength ⟨"aaaaabbbbb1aaaaabbbbb1aaaaabbbbb1", 200, 0⟩ = 33 ∧
    ((detectBooleanBased ⟨"aaaaabbbbb1", 200, 0⟩
        ⟨"aaaaabbbbb1aaaaabbbbb1aaaaabbbbb1", 200, 0⟩ "1' OR '1'='1").1 = true ∧
      (detectBooleanBased ⟨"aaaaabbbbb1", 200, 0⟩
        ⟨"aaaaabbbbb1aaaaabbbbb1aaaaabbbbb1", 200, 0⟩ "1' OR '1'='1").2.1 = 4/5 ∧
      (3/5 : ℚ) < (detectBooleanBased ⟨"aaaaabbbbb1", 200, 0⟩
        ⟨"aaaaabbbbb1aaaaabbbbb1aaaaabbbbb1", 200, 0⟩ "1' OR '1'='1").2.1) :=
  ⟨by decide, by decide, by decide, by decide,
    (boolean_or_true_detection _ _ _ _ rfl (by decide) (by decide)).2.2
      (by decide) (by decide)⟩

/-! ## C10: boolean-based detection is total on an empty baseline -/

/-- C10: with a baseline of content length 0 the length ratio is defined
as 0 (no division-by-zero error), and an OR-true probe longer than 10
bytes is still flagged with confidence 0.7 via the absolute-difference
fallback. -/
theorem boolean_empty_baseline_total (baseline malicious : AppResponse)
    (payload : String)
    (hOR : strContains payload "OR" = true)
    (h11 : strContains payload "1'='1" = true)
    (h0 : contentLength baseline = 0)
    (h10 : 10 < contentLength malicious) :
    detectBooleanBased baseline malicious payload =
      (true, 7/10,
        ⟨0, contentLength malicious, contentLength malicious, 0⟩) := by
  unfold detectBooleanBased
  simp only [hOR, h11, Bool.and_self, if_true, h0]
  have hdiff : lenDiff (contentLength malicious) 0 = contentLength malicious := by
    simp [lenDiff]
  norm_num [hdiff, h10]

/-- Witness for C10: empty baseline body, 11-byte probe body. -/
theorem boolean_empty_baseline_total_witness :
    contentLength ⟨"", 200, 0⟩ = 0 ∧
    (10 : ℕ) < contentLength ⟨"aaaaabbbbb1", 200, 0⟩ ∧
    detectBooleanBased ⟨"", 200, 0⟩ ⟨"aaaaabbbbb1", 200, 0⟩ "1' OR '1'='1" =
      (true, 7/10, ⟨0, 11, 11, 0⟩) :=
  ⟨by decide, by decide,
    boolean_empty_baseline_total _ _ _ (by decide) (by decide) (by decide)
      (by decide)⟩

/-! ## C1: time-based detection thresholds -/

theorem timeStdLoop_some_le {T : ℚ} {f : TimeFinding} :
    ∀ {i : ℕ} {l : List (ℚ × ℚ)}, timeStdLoop T i l = some f → T ≤ f.elapsed := by
  intro i l
  induction l generalizing i with
  | nil => simp [timeStdLoop]
  | cons pv rest ih =>
    intro h
    rw [timeStdLoop] at h
    split_ifs at h with h1 h2
    · cases h
      exact h1
    · exact ih h
    · exact ih h

theorem timeAggrLoop_some_le {T : ℚ} {f : TimeFinding} :
    ∀ {i : ℕ} {l : List ℚ}, timeAggrLoop T i l = some f → T ≤ f.elapsed := by
  intro i l
  induction l generalizing i with
  | nil => simp [timeAggrLoop]
  | cons p rest ih =>
    intro h
    rw [timeAggrLoop] at h
    split_ifs at h with h1
    · cases h
      exact h1
    · exact ih h

theorem timeStdLoop_isSome_of_confirmed {T : ℚ} :
    ∀ {i : ℕ} {l : List (ℚ × ℚ)},
      (∃ pv ∈ l, T ≤ pv.1 ∧ T ≤ pv.2) → (timeStdLoop T i l).isSome = true := by
  intro i l
  induction l generalizing i with
  | nil => simp
  | cons pv rest ih =>
    rintro ⟨qv, hq, hq1, hq2⟩
    rw [timeStdLoop]
    rcases List.mem_cons.1 hq with h | h
    · subst h
      rw [if_pos hq1, if_pos hq2]
      rfl
    · split_ifs with h1 h2
      · rfl
      · exact ih ⟨qv, h, hq1, hq2⟩
      · exact ih ⟨qv, h, hq1, hq2⟩

/-- C1: time-based detection samples the baseline 3 times (mean and
standard deviation of exactly `t1 t2 t3`, with `s` the code's
`variance ** 0.5`) and sets `threshold = mean + 3·s + base_delay`;
no probe below the threshold ever yields a finding (the recorded
elapsed time of any finding is ≥ threshold, in both the standard and
the aggressive phase), a probe at/above threshold whose verification
request also meets it always yields a finding, and the app-stack
`_detect_time_based` assigns confidence ≥ 0.5 whenever it flags. -/
theorem time_based_threshold_behavior
    (t1 t2 t3 s : ℚ) (hs : s * s = timeVariance t1 t2 t3) (hs0 : 0 ≤ s)
    (std : List (ℚ × ℚ)) (aggr : List ℚ) :
    (∀ f, testTimeBasedPlugin (timeThreshold (timeMean t1 t2 t3) s) std aggr
        = some f →
      timeThreshold (timeMean t1 t2 t3) s ≤ f.elapsed) ∧
    ((∃ pv ∈ std, timeThreshold (timeMean t1 t2 t3) s ≤ pv.1 ∧
        timeThreshold (timeMean t1 t2 t3) s ≤ pv.2) →
      (testTimeBasedPlugin (timeThreshold (timeMean t1 t2 t3) s) std aggr).isSome
        = true) ∧
    (∀ baseline malicious : AppResponse,
      (detectTimeBased baseline malicious).1 = true →
      (1/2 : ℚ) ≤ (detectTimeBased baseline malicious).2) := by
  refine ⟨?_, ?_, ?_⟩
  · intro f h
    unfold testTimeBasedPlugin at h
    rcases hstd : timeStdLoop (timeThreshold (timeMean t1 t2 t3) s) 0 std with
      _ | g
    · rw [hstd] at h
      exact timeAggrLoop_some_le h
    · rw [hstd] at h
      cases h
      exact timeStdLoop_some_le hstd
  · intro hex
    unfold testTimeBasedPlugin
    rcases hstd : timeStdLoop (timeThreshold (timeMean t1 t2 t3) s) 0 std with
      _ | g
    · have := timeStdLoop_isSome_of_confirmed (i := 0) hex
      rw [hstd] at this
      exact absurd this (by simp)
    · rfl
  · intro baseline malicious h
    simp only [detectTimeBased] at h ⊢
    split_ifs at h ⊢ <;> norm_num

/-- Witness for C1: a flat baseline (1s, 1s, 1s) gives variance 0, so
`s = 0` satisfies `s² = variance`; the threshold is 3s and a probe of
5s confirmed at 5s yields a finding. -/
theorem time_based_threshold_behavior_witness :
    ((0:ℚ) * 0 = timeVariance 1 1 1) ∧
    (testTimeBasedPlugin (timeThreshold (timeMean 1 1 1) 0)
      [((5:ℚ), (5:ℚ))] []).isSome = true :=
  ⟨by norm_num [timeVariance, timeMean],
   (time_based_threshold_behavior 1 1 1 0
      (by norm_num [timeVariance, timeMean]) le_rfl [(5, 5)] []).2.1
    ⟨(5, 5), by simp,
      by norm_num [timeThreshold, timeMean, pluginBaseDelay],
      by norm_num [timeThreshold, timeMean, pluginBaseDelay]⟩⟩

/-! ## C2: first-match-wins per (parameter, strategy) -/

theorem pluginErrorLoop_length_le_one (sqlError : String → Bool)
    (bodies : ℕ → Option String) :
    ∀ (i : ℕ) (l : List String),
      (pluginErrorLoop sqlError bodies i l).length ≤ 1 := by
  intro i l
  induction l generalizing i with
  | nil => simp [pluginErrorLoop]
  | cons p rest ih =>
    rw [pluginErrorLoop]
    split_ifs with h1
    · exact ih (i + 1)
    · rcases bodies i with _ | body
      · exact ih (i + 1)
      · dsimp only
        split_ifs with h2
        · simp
        · exact ih (i + 1)

theorem pluginErrorLoop_mem_justified (sqlError : String → Bool)
    (bodies : ℕ → Option String) :
    ∀ (i : ℕ) (l : List String) (ip : ℕ × String),
      ip ∈ pluginErrorLoop sqlError bodies i l →
      ∃ body, bodies ip.1 = some body ∧ body ≠ "" ∧ sqlError body = true := by
  intro i l
  induction l generalizing i with
  | nil => simp [pluginErrorLoop]
  | cons p rest ih =>
    intro ip hip
    rw [pluginErrorLoop] at hip
    split_ifs at hip with h1
    · exact ih (i + 1) ip hip
    · rcases hb : bodies i with _ | body
      · rw [hb] at hip
        exact ih (i + 1) ip hip
      · rw [hb] at hip
        dsimp only at hip
        split_ifs at hip with h2
        · rcases List.mem_singleton.1 hip with rfl
          rw [Bool.and_eq_true] at h2
          refine ⟨body, hb, ?_, h2.2⟩
          simpa using h2.1
        · exact ih (i + 1) ip hip

/-- C2 (amended): in the plugin stack, `_test_error_based` stops at the
first payload whose response contains a SQL error, so one invocation
records at most one vulnerability, and every recorded vulnerability is
justified by a non-empty response body that the SQL-error predicate
accepts.  (The app-stack `scan` does not skip: see the
counterexample.) -/
theorem plugin_error_based_first_match_wins (sqlError : String → Bool)
    (bodies : ℕ → Option String) :
    (testErrorBasedPlugin sqlError bodies).length ≤ 1 ∧
    (∀ ip ∈ testErrorBasedPlugin sqlError bodies,
      ∃ body, bodies ip.1 = some body ∧ body ≠ "" ∧ sqlError body = true) :=
  ⟨pluginErrorLoop_length_le_one sqlError bodies 0 testPayloadsPlugin,
   fun ip hip =>
     pluginErrorLoop_mem_justified sqlError bodies 0 testPayloadsPlugin ip hip⟩

/-- Witness for C2's amended claim: with every probe answered by a body
the error predicate accepts, the plugin loop still records exactly one
finding (for the first payload). -/
theorem plugin_error_based_first_match_wins_witness :
    (testErrorBasedPlugin (fun b => strContains b "error")
      (fun _ => some "You have an error")).length ≤ 1 ∧
    (∃ body, (fun _ => some "You have an error" : ℕ → Option String)
        ((0 : ℕ), "' OR '1'='1").1 = some body ∧ body ≠ "" ∧
      (fun b => strContains b "error") body = true) :=
  ⟨(plugin_error_based_first_match_wins (fun b => strContains b "error")
      (fun _ => some "You have an error")).1,
   (plugin_error_based_first_match_wins (fun b => strContains b "error")
      (fun _ => some "You have an error")).2 (0, "' OR '1'='1") (by decide)⟩

/-- Evaluation helper: against a target that answers every probe with
the MySQL syntax-error page (baseline body `"x"`), the app-stack scan
of one parameter emits three findings: one per error-based payload and
one for the OR-true boolean payload (the union signal scores 0.6 and is
cut by the 0.7 threshold; time-based sees no delay). -/
theorem appScan_sqlError_eval (url p : String) :
    appScan url [(p, "1")]
      (fun _ _ => (⟨"x", 200, 0⟩,
        ⟨"You have an error in your SQL syntax", 200, 0⟩)) =
      [⟨"SQL Injection - " ++ "Single Quote Error Test", .error_based, .high,
        url, p, "'", 9/10⟩,
       ⟨"SQL Injection - " ++ "Double Quote Error Test", .error_based, .high,
        url, p, "\"", 9/10⟩,
       ⟨"SQL Injection - " ++ "Boolean OR True", .boolean_based, .high,
        url, p, "1' OR '1'='1", 4/5⟩] := by
  have he1 : (detectErrorBased ⟨"x", 200, 0⟩
      ⟨"You have an error in your SQL syntax", 200, 0⟩).1 = true := by decide
  have he2 : (detectErrorBased ⟨"x", 200, 0⟩
      ⟨"You have an error in your SQL syntax", 200, 0⟩).2.1 = 9/10 := rfl
  have hcb : contentLength ⟨"x", 200, 0⟩ = 1 := by decide
  have hcm : contentLength ⟨"You have an error in your SQL syntax", 200, 0⟩
      = 36 := by decide
  have hb3t : (detectBooleanBased ⟨"x", 200, 0⟩
      ⟨"You have an error in your SQL syntax", 200, 0⟩ "1' OR '1'='1").1
      = true := by
    unfold detectBooleanBased
    norm_num [show strContains "1' OR '1'='1" "OR" = true from by decide,
      show strContains "1' OR '1'='1" "1'='1" = true from by decide, hcb, hcm]
  have hb3c : (detectBooleanBased ⟨"x", 200, 0⟩
      ⟨"You have an error in your SQL syntax", 200, 0⟩ "1' OR '1'='1").2.1
      = 4/5 := by
    unfold detectBooleanBased
    norm_num [show strContains "1' OR '1'='1" "OR" = true from by decide,
      show strContains "1' OR '1'='1" "1'='1" = true from by decide, hcb, hcm]
  have hb4 : (detectBooleanBased ⟨"x", 200, 0⟩
      ⟨"You have an error in your SQL syntax", 200, 0⟩ "1' AND '1'='1").1
      = false := by
    unfold detectBooleanBased
    norm_num [show strContains "1' AND '1'='1" "OR" = false from by decide,
      show strContains "1' AND '1'='1" "AND" = true from by decide,
      show strContains "1' AND '1'='1" "1'='1" = true from by decide, hcb, hcm]
  have hb5 : (detectBooleanBased ⟨"x", 200, 0⟩
      ⟨"You have an error in your SQL syntax", 200, 0⟩ "1' AND '1'='2").1
      = false := by
    unfold detectBooleanBased
    norm_num [show strContains "1' AND '1'='2" "OR" = false from by decide,
      show strContains "1' AND '1'='2" "AND" = true from by decide,
      show strContains "1' AND '1'='2" "1'='1" = false from by decide,
      show strContains "1' AND '1'='2" "1'='2" = true from by decide, hcb, hcm]
  have ht : detectTimeBased ⟨"x", 200, 0⟩
      ⟨"You have an error in your SQL syntax", 200, 0⟩ = (false, 0) := by
    unfold detectTimeBased
    norm_num
  have ha1 : analyzeResponses ⟨"x", 200, 0⟩
      ⟨"You have an error in your SQL syntax", 200, 0⟩
      ⟨"Single Quote Error Test", "'", .error_based, .high⟩ url p =
      some ⟨"SQL Injection - " ++ "Single Quote Error Test",
        .error_based, .high, url, p, "'", 9/10⟩ := by
    unfold analyzeResponses
    norm_num [he1, he2, scannerConfidenceThreshold]
  have ha2 : analyzeResponses ⟨"x", 200, 0⟩
      ⟨"You have an error in your SQL syntax", 200, 0⟩
      ⟨"Double Quote Error Test", "\"", .error_based, .high⟩ url p =
      some ⟨"SQL Injection - " ++ "Double Quote Error Test",
        .error_based, .high, url, p, "\"", 9/10⟩ := by
    unfold analyzeResponses
    norm_num [he1, he2, scannerConfidenceThreshold]
  have ha3 : analyzeResponses ⟨"x", 200, 0⟩
      ⟨"You have an error in your SQL syntax", 200, 0⟩
      ⟨"Boolean OR True", "1' OR '1'='1", .boolean_based, .high⟩ url p =
      some ⟨"SQL Injection - " ++ "Boolean OR True",
        .boolean_based, .high, url, p, "1' OR '1'='1", 4/5⟩ := by
    unfold analyzeResponses
    norm_num [hb3t, hb3c, scannerConfidenceThreshold]
  have ha4 : analyzeResponses ⟨"x", 200, 0⟩
      ⟨"You have an error in your SQL syntax", 200, 0⟩
      ⟨"Boolean AND True", "1' AND '1'='1", .boolean_based, .medium⟩ url p
      = none := by
    unfold analyzeResponses
    norm_num [hb4, scannerConfidenceThreshold]
  have ha5 : analyzeResponses ⟨"x", 200, 0⟩
      ⟨"You have an error in your SQL syntax", 200, 0⟩
      ⟨"Boolean AND False", "1' AND '1'='2", .boolean_based, .medium⟩ url p
      = none := by
    unfold analyzeResponses
    norm_num [hb5, scannerConfidenceThreshold]
  have hu : ∀ name pl : String,
      analyzeResponses ⟨"x", 200, 0⟩
        ⟨"You have an error in your SQL syntax", 200, 0⟩
        ⟨name, pl, .union_based, .critical⟩ url p = none := by
    intro name pl
    have h1 : (detectUnionBased ⟨"x", 200, 0⟩
        ⟨"You have an error in your SQL syntax", 200, 0⟩ pl).2.1 = 6/10 := rfl
    unfold analyzeResponses
    norm_num [h1, scannerConfidenceThreshold]
  have hti : ∀ name pl : String,
      analyzeResponses ⟨"x", 200, 0⟩
        ⟨"You have an error in your SQL syntax", 200, 0⟩
        ⟨name, pl, .time_based, .high⟩ url p = none := by
    intro name pl
    unfold analyzeResponses
    norm_num [ht, scannerConfidenceThreshold]
  simp only [appScan, sqlPayloads, List.flatMap_cons, List.flatMap_nil,
    List.append_nil, List.filterMap_cons, List.filterMap_nil,
    ha1, ha2, ha3, ha4, ha5, hu, hti]

/-- C2 counterexample: the app-stack `scan` has no skip after a
finding — with a target that answers every probe with the MySQL
syntax-error page, both error-based payloads yield a finding for the
same parameter, so one scan emits two findings for the
(parameter `id`, error-based strategy) pair. -/
theorem app_scan_two_findings_per_strategy :
    ((appScan "http://host/page"
        [("id", "1")]
        (fun _ _ => (⟨"x", 200, 0⟩,
          ⟨"You have an error in your SQL syntax", 200, 0⟩))).filter
      (fun f => f.parameter = "id" && f.strategy = InjType.error_based)).length
      = 2 := by
  rw [appScan_sqlError_eval]
  decide

/-! ## C6: fields of every emitted finding -/

theorem detectErrorBased_conf_bounds (b m : AppResponse) :
    0 ≤ (detectErrorBased b m).2.1 ∧ (detectErrorBased b m).2.1 ≤ 1 := by
  simp only [detectErrorBased]
  split_ifs <;> norm_num

theorem detectBooleanBased_conf_bounds (b m : AppResponse) (pl : String) :
    0 ≤ (detectBooleanBased b m pl).2.1 ∧
      (detectBooleanBased b m pl).2.1 ≤ 1 := by
  simp only [detectBooleanBased]
  split_ifs <;> norm_num

theorem detectUnionBased_conf_bounds (b m : AppResponse) (pl : String) :
    0 ≤ (detectUnionBased b m pl).2.1 ∧ (detectUnionBased b m pl).2.1 ≤ 1 := by
  simp only [detectUnionBased]
  split_ifs <;> norm_num

theorem detectTimeBased_conf_bounds (b m : AppResponse) :
    0 ≤ (detectTimeBased b m).2 ∧ (detectTimeBased b m).2 ≤ 1 := by
  simp only [detectTimeBased]
  split_ifs <;> norm_num

theorem sqlPayloads_payload_ne {pi : PayloadInfo} (h : pi ∈ sqlPayloads) :
    pi.payload ≠ "" := by
  have hall : sqlPayloads.all (fun q => decide (q.payload ≠ "")) = true := by
    decide
  rw [List.all_eq_true] at hall
  simpa using hall pi h

theorem analyzeResponses_some_fields {baseline malicious : AppResponse}
    {pi : PayloadInfo} {baseUrl paramName : String} {f : AppFinding}
    (h : analyzeResponses baseline malicious pi baseUrl paramName = some f) :
    0 ≤ f.confidence ∧ f.confidence ≤ 1 ∧
    scannerConfidenceThreshold ≤ f.confidence ∧
    f.payload = pi.payload ∧ f.endpoint = baseUrl ∧
    f.parameter = paramName := by
  unfold analyzeResponses at h
  rcases pi with ⟨name, payload, ptype, risk⟩
  cases ptype <;>
    (dsimp only at h
     split_ifs at h with hc
     rw [Bool.and_eq_true, decide_eq_true_eq] at hc
     simp only [Option.some.injEq] at h
     subst h)
  · exact ⟨(detectErrorBased_conf_bounds baseline malicious).1,
      (detectErrorBased_conf_bounds baseline malicious).2, hc.2, rfl, rfl, rfl⟩
  · exact ⟨(detectBooleanBased_conf_bounds baseline malicious payload).1,
      (detectBooleanBased_conf_bounds baseline malicious payload).2, hc.2,
      rfl, rfl, rfl⟩
  · exact ⟨(detectUnionBased_conf_bounds baseline malicious payload).1,
      (detectUnionBased_conf_bounds baseline malicious payload).2, hc.2,
      rfl, rfl, rfl⟩
  · exact ⟨(detectTimeBased_conf_bounds baseline malicious).1,
      (detectTimeBased_conf_bounds baseline malicious).2, hc.2, rfl, rfl, rfl⟩

/-- C6 (amended): every finding emitted by the app-stack scan has a
confidence within [0, 1] and at least the configured threshold, and a
non-empty payload; its endpoint and parameter echo the scanned target
URL and one of the scanned parameter names — which can themselves be
empty (see the counterexample), so non-emptiness of `parameter` and
`endpoint` holds only for non-empty inputs. -/
theorem app_scan_finding_invariants (targetUrl : String)
    (params : List (String × String)) (env : AppEnv) :
    ∀ f ∈ appScan targetUrl params env,
      0 ≤ f.confidence ∧ f.confidence ≤ 1 ∧
      scannerConfidenceThreshold ≤ f.confidence ∧
      f.payload ≠ "" ∧ f.endpoint = targetUrl ∧
      ∃ p ∈ params, f.parameter = p.1 := by
  intro f hf
  unfold appScan at hf
  rw [List.mem_flatMap] at hf
  rcases hf with ⟨p, hp, hf⟩
  rw [List.mem_filterMap] at hf
  rcases hf with ⟨pi, hpi, hsome⟩
  have h := analyzeResponses_some_fields hsome
  have hpay : pi.payload ≠ "" := sqlPayloads_payload_ne hpi
  refine ⟨h.1, h.2.1, h.2.2.1, ?_, h.2.2.2.2.1, ⟨p, hp, h.2.2.2.2.2⟩⟩
  rw [h.2.2.2.1]
  exact hpay

/-- Witness for C6 at a concrete emitted finding (the first finding of
the concrete scan used for the counterexamples). -/
theorem app_scan_finding_invariants_witness :
    scannerConfidenceThreshold ≤
      (⟨"SQL Injection - " ++ "Single Quote Error Test", .error_based, .high,
        "http://host/page", "id", "'", 9/10⟩ : AppFinding).confidence ∧
    (⟨"SQL Injection - " ++ "Single Quote Error Test", .error_based, .high,
      "http://host/page", "id", "'", 9/10⟩ : AppFinding).payload ≠ "" := by
  have hmem : (⟨"SQL Injection - " ++ "Single Quote Error Test", .error_based,
      .high, "http://host/page", "id", "'", 9/10⟩ : AppFinding) ∈
      appScan "http://host/page" [("id", "1")]
        (fun _ _ => (⟨"x", 200, 0⟩,
          ⟨"You have an error in your SQL syntax", 200, 0⟩)) := by
    rw [appScan_sqlError_eval]
    exact List.mem_cons_self _ _
  have h := app_scan_finding_invariants "http://host/page" [("id", "1")]
    (fun _ _ => (⟨"x", 200, 0⟩,
      ⟨"You have an error in your SQL syntax", 200, 0⟩)) _ hmem
  exact ⟨h.2.2.1, h.2.2.2.1⟩

/-- C6 counterexample: the query string `?=1` yields the parameter
name `""` (`parse_qs` keeps pairs with an empty name), and scanning it
emits findings whose `parameter` field is empty — so "non-empty
parameter" fails on the code. -/
theorem app_scan_empty_parameter_finding :
    extractParameters "=1" = [("", "1")] ∧
    ((appScan "http://host/page?=1" (extractParameters "=1")
        (fun _ _ => (⟨"x", 200, 0⟩,
          ⟨"You have an error in your SQL syntax", 200, 0⟩))).filter
      (fun f => f.parameter = "")).length = 3 := by
  refine ⟨by decide, ?_⟩
  have hq : extractParameters "=1" = [("", "1")] := by decide
  rw [hq, appScan_sqlError_eval]
  decide

/-! ## C8: request executor retry policy -/

theorem retryGo_stop (env : ℕ → ReqOutcome) (s a fuel : ℕ)
    (h : ¬(retryable (env a) = true ∧ a < s)) :
    retryGo env s a fuel = (env a, a, []) := by
  cases fuel with
  | zero => rfl
  | succ fuel =>
    rw [retryGo]
    rw [if_neg]
    simp only [Bool.and_eq_true, decide_eq_true_eq]
    exact h

theorem retryGo_final_ge (env : ℕ → ReqOutcome) (s : ℕ) :
    ∀ (fuel a : ℕ), a ≤ (retryGo env s a fuel).2.1 := by
  intro fuel
  induction fuel with
  | zero => intro a; exact le_refl a
  | succ fuel ih =>
    intro a
    rw [retryGo]
    split_ifs with h
    · exact le_trans (Nat.le_succ a) (ih (a + 1))
    · exact le_refl a

theorem retryGo_final_le (env : ℕ → ReqOutcome) (s : ℕ) :
    ∀ (fuel a : ℕ), (retryGo env s a fuel).2.1 ≤ max a s := by
  intro fuel
  induction fuel with
  | zero => intro a; exact le_max_left a s
  | succ fuel ih =>
    intro a
    rw [retryGo]
    split_ifs with h
    · rw [Bool.and_eq_true, decide_eq_true_eq] at h
      refine le_trans (ih (a + 1)) ?_
      have : a + 1 ≤ s := h.2
      omega
    · exact le_max_left a s

theorem retryGo_prev_retryable (env : ℕ → ReqOutcome) (s : ℕ) :
    ∀ (fuel a k : ℕ), a ≤ k → k < (retryGo env s a fuel).2.1 →
      retryable (env k) = true := by
  intro fuel
  induction fuel with
  | zero =>
    intro a k hak hk
    simp only [retryGo] at hk
    omega
  | succ fuel ih =>
    intro a k hak hk
    simp only [retryGo] at hk
    split_ifs at hk with h
    · rw [Bool.and_eq_true] at h
      dsimp only at hk
      rcases Nat.eq_or_lt_of_le hak with rfl | hlt
      · exact h.1
      · exact ih (a + 1) k hlt hk
    · dsimp only at hk
      omega

theorem retryGo_delays (env : ℕ → ReqOutcome) (s : ℕ) :
    ∀ (fuel a : ℕ),
      (retryGo env s a fuel).2.2 =
        (List.range ((retryGo env s a fuel).2.1 - a)).map
          (fun k => waitExponential 1 1 10 (a + k)) := by
  intro fuel
  induction fuel with
  | zero => intro a; simp [retryGo]
  | succ fuel ih =>
    intro a
    simp only [retryGo]
    split_ifs with h
    · have hge := retryGo_final_ge env s fuel (a + 1)
      dsimp only
      rw [ih (a + 1)]
      have hsub : (retryGo env s (a + 1) fuel).2.1 - a =
          ((retryGo env s (a + 1) fuel).2.1 - (a + 1)) + 1 := by omega
      rw [hsub, List.range_succ_eq_map]
      simp only [List.map_cons, List.map_map, Nat.add_zero]
      congr 1
      apply List.map_congr_left
      intro k _
      simp only [Function.comp_apply]
      congr 1
      omega
    · simp

theorem waitExponential_bounds (n : ℕ) :
    (1 : ℚ) ≤ waitExponential 1 1 10 n ∧ waitExponential 1 1 10 n ≤ 10 := by
  unfold waitExponential
  constructor
  · exact le_trans (by norm_num) (le_max_left (max 0 1) _)
  · exact max_le (by norm_num) (min_le_right _ _)

/-- C8: `send_request` makes at most 3 attempts; a first-attempt HTTP
response — whatever its status code — is returned as-is with no retry
and no sleeps; a non-retryable exception propagates immediately; every
attempt before the final one failed with a retryable (network/timeout)
error; and the sleeps are exactly the exponential waits
`clamp(1·2^attempt, 1s, 10s)`, each between 1 and 10 seconds. -/
theorem request_retry_policy (env : ℕ → ReqOutcome) :
    (sendRequestRetry env).2.1 ≤ 3 ∧
    (∀ status, env 1 = .ok status →
      sendRequestRetry env = (.ok status, 1, [])) ∧
    (env 1 = .otherError → sendRequestRetry env = (.otherError, 1, [])) ∧
    (∀ k, 1 ≤ k → k < (sendRequestRetry env).2.1 →
      retryable (env k) = true) ∧
    (sendRequestRetry env).2.2 =
      (List.range ((sendRequestRetry env).2.1 - 1)).map
        (fun k => waitExponential 1 1 10 (1 + k)) ∧
    (∀ d ∈ (sendRequestRetry env).2.2, (1:ℚ) ≤ d ∧ d ≤ 10) := by
  refine ⟨?_, ?_, ?_, ?_, ?_, ?_⟩
  · exact le_trans (retryGo_final_le env 3 3 1) (by norm_num)
  · intro status h
    unfold sendRequestRetry
    rw [retryGo_stop env 3 1 3 (by rw [h]; simp [retryable]), h]
  · intro h
    unfold sendRequestRetry
    rw [retryGo_stop env 3 1 3 (by rw [h]; simp [retryable]), h]
  · exact fun k hk1 hk2 => retryGo_prev_retryable env 3 3 1 k hk1 hk2
  · exact retryGo_delays env 3 3 1
  · intro d hd
    unfold sendRequestRetry at hd
    rw [retryGo_delays env 3 3 1] at hd
    rcases List.mem_map.1 hd with ⟨k, _, rfl⟩
    exact waitExponential_bounds (1 + k)

/-- Witness for C8: a target that times out once and then succeeds, and
one that answers 500 immediately (returned without retrying). -/
theorem request_retry_policy_witness :
    (sendRequestRetry (fun n => if n = 1 then .timeoutError else .ok 200)).2.1
      ≤ 3 ∧
    sendRequestRetry (fun _ => .ok 500) = (.ok 500, 1, []) :=
  ⟨(request_retry_policy (fun n => if n = 1 then .timeoutError else .ok 200)).1,
   (request_retry_policy (fun _ => .ok 500)).2.1 500 rfl⟩

/-! ## Crawler invariant lemmas (for C3 and C7) -/

theorem shouldVisit_netloc {cfg : CrawlConfig} {u : CrawlUrl}
    (h : shouldVisit cfg u = true) :
    u.netloc = "" ∨ u.netloc = cfg.baseDomain := by
  unfold shouldVisit at h
  split_ifs at h with h1 h2
  rw [Bool.and_eq_true, decide_eq_true_eq, decide_eq_true_eq] at h2
  by_cases he : u.netloc = ""
  · exact Or.inl he
  · rcases not_and_or.1 h2 with hc | hc
    · exact absurd he (by simpa using hc)
    · exact Or.inr (by simpa using hc)

theorem shouldVisit_robots {cfg : CrawlConfig} {u : CrawlUrl}
    (h : shouldVisit cfg u = true) : isAllowedByRobots cfg u = true := by
  unfold shouldVisit at h
  split_ifs at h with h1 h2
  simpa using h1

theorem addLinks_visited (cfg : CrawlConfig) :
    ∀ (l : List CrawlUrl) (st : CrawlState),
      (addLinks cfg st l).visited = st.visited := by
  intro l
  induction l with
  | nil => intro st; rfl
  | cons a rest ih =>
    intro st
    rw [addLinks]
    split_ifs <;> exact ih _

theorem addLinks_fetched (cfg : CrawlConfig) :
    ∀ (l : List CrawlUrl) (st : CrawlState),
      (addLinks cfg st l).fetched = st.fetched := by
  intro l
  induction l with
  | nil => intro st; rfl
  | cons a rest ih =>
    intro st
    rw [addLinks]
    split_ifs <;> exact ih _

theorem addLinks_found_mem (cfg : CrawlConfig) :
    ∀ (l : List CrawlUrl) (st : CrawlState) (v : CrawlUrl),
      v ∈ (addLinks cfg st l).found → v ∈ st.found ∨ v ∈ l := by
  intro l
  induction l with
  | nil => intro st v h; exact Or.inl h
  | cons a rest ih =>
    intro st v h
    rw [addLinks] at h
    split_ifs at h with h1
    · rcases ih _ v h with h2 | h2
      · rcases List.mem_append.1 h2 with h3 | h3
        · exact Or.inl h3
        · exact Or.inr (List.mem_cons.2 (Or.inl (List.mem_singleton.1 h3)))
      · exact Or.inr (List.mem_cons.2 (Or.inr h2))
    · rcases ih _ v h with h2 | h2
      · exact Or.inl h2
      · exact Or.inr (List.mem_cons.2 (Or.inr h2))

theorem addForms_visited :
    ∀ (l : List CrawlUrl) (st : CrawlState),
      (addForms st l).visited = st.visited := by
  intro l
  induction l with
  | nil => intro st; rfl
  | cons a rest ih =>
    intro st
    rw [addForms]
    split_ifs <;> exact ih _

theorem addForms_fetched :
    ∀ (l : List CrawlUrl) (st : CrawlState),
      (addForms st l).fetched = st.fetched := by
  intro l
  induction l with
  | nil => intro st; rfl
  | cons a rest ih =>
    intro st
    rw [addForms]
    split_ifs <;> exact ih _

theorem addForms_found_mem :
    ∀ (l : List CrawlUrl) (st : CrawlState) (v : CrawlUrl),
      v ∈ (addForms st l).found → v ∈ st.found ∨ v ∈ l := by
  intro l
  induction l with
  | nil => intro st v h; exact Or.inl h
  | cons a rest ih =>
    intro st v h
    rw [addForms] at h
    split_ifs at h with h1
    · rcases ih _ v h with h2 | h2
      · rcases List.mem_append.1 h2 with h3 | h3
        · exact Or.inl h3
        · exact Or.inr (List.mem_cons.2 (Or.inl (List.mem_singleton.1 h3)))
      · exact Or.inr (List.mem_cons.2 (Or.inr h2))
    · rcases ih _ v h with h2 | h2
      · exact Or.inl h2
      · exact Or.inr (List.mem_cons.2 (Or.inr h2))

theorem visitUrl_visited_mem {cfg : CrawlConfig} {env : CrawlUrl → PageData}
    {st : CrawlState} {u v : CrawlUrl}
    (h : v ∈ (visitUrl cfg env st u).visited) : v ∈ st.visited ∨ v = u := by
  simp only [visitUrl] at h
  split_ifs at h with h1 h2 h3
  · exact Or.inl h
  · rcases List.mem_append.1 h with h4 | h4
    · exact Or.inl h4
    · exact Or.inr (List.mem_singleton.1 h4)
  · rw [addForms_visited, addLinks_visited] at h
    rcases List.mem_append.1 h with h4 | h4
    · exact Or.inl h4
    · exact Or.inr (List.mem_singleton.1 h4)
  · rcases List.mem_append.1 h with h4 | h4
    · exact Or.inl h4
    · exact Or.inr (List.mem_singleton.1 h4)

theorem visitUrl_fetched_mem {cfg : CrawlConfig} {env : CrawlUrl → PageData}
    {st : CrawlState} {u v : CrawlUrl}
    (h : v ∈ (visitUrl cfg env st u).fetched) :
    v ∈ st.fetched ∨ (v = u ∧ isAllowedByRobots cfg u = true) := by
  simp only [visitUrl] at h
  split_ifs at h with h1 h2 h3
  · exact Or.inl h
  · exact Or.inl h
  · rw [addForms_fetched, addLinks_fetched] at h
    rcases List.mem_append.1 h with h4 | h4
    · exact Or.inl h4
    · exact Or.inr ⟨List.mem_singleton.1 h4, by simpa using h2⟩
  · rcases List.mem_append.1 h with h4 | h4
    · exact Or.inl h4
    · exact Or.inr ⟨List.mem_singleton.1 h4, by simpa using h2⟩

theorem visitUrl_found_mem {cfg : CrawlConfig} {env : CrawlUrl → PageData}
    {st : CrawlState} {u v : CrawlUrl}
    (h : v ∈ (visitUrl cfg env st u).found) :
    v ∈ st.found ∨ v ∈ (env u).links ∨ v ∈ (env u).forms := by
  simp only [visitUrl] at h
  split_ifs at h with h1 h2 h3
  · exact Or.inl h
  · exact Or.inl h
  · rcases addForms_found_mem _ _ v h with h4 | h4
    · rcases addLinks_found_mem cfg _ _ v h4 with h5 | h5
      · exact Or.inl h5
      · exact Or.inr (Or.inl h5)
    · exact Or.inr (Or.inr h4)
  · exact Or.inl h

theorem visitList_visited_mem {cfg : CrawlConfig} {env : CrawlUrl → PageData} :
    ∀ (l : List CrawlUrl) (st : CrawlState) (v : CrawlUrl),
      v ∈ (visitList cfg env st l).visited →
      v ∈ st.visited ∨ (shouldVisit cfg v = true ∧ v ∈ l) := by
  intro l
  induction l with
  | nil => intro st v h; exact Or.inl h
  | cons u rest ih =>
    intro st v h
    rw [visitList] at h
    split_ifs at h with h1
    · rcases ih _ v h with h2 | h2
      · rcases visitUrl_visited_mem h2 with h3 | h3
        · exact Or.inl h3
        · subst h3
          exact Or.inr ⟨h1, List.mem_cons_self _ _⟩
      · exact Or.inr ⟨h2.1, List.mem_cons.2 (Or.inr h2.2)⟩
    · rcases ih _ v h with h2 | h2
      · exact Or.inl h2
      · exact Or.inr ⟨h2.1, List.mem_cons.2 (Or.inr h2.2)⟩

theorem visitList_fetched_mem {cfg : CrawlConfig} {env : CrawlUrl → PageData} :
    ∀ (l : List CrawlUrl) (st : CrawlState) (v : CrawlUrl),
      v ∈ (visitList cfg env st l).fetched →
      v ∈ st.fetched ∨ isAllowedByRobots cfg v = true := by
  intro l
  induction l with
  | nil => intro st v h; exact Or.inl h
  | cons u rest ih =>
    intro st v h
    rw [visitList] at h
    split_ifs at h with h1
    · rcases ih _ v h with h2 | h2
      · rcases visitUrl_fetched_mem h2 with h3 | h3
        · exact Or.inl h3
        · exact Or.inr (h3.1 ▸ h3.2)
      · exact Or.inr h2
    · rcases ih _ v h with h2 | h2
      · exact Or.inl h2
      · exact Or.inr h2

theorem visitList_found_mem {cfg : CrawlConfig} {env : CrawlUrl → PageData} :
    ∀ (l : List CrawlUrl) (st : CrawlState) (v : CrawlUrl),
      v ∈ (visitList cfg env st l).found →
      v ∈ st.found ∨ ∃ u, v ∈ (env u).links ∨ v ∈ (env u).forms := by
  intro l
  induction l with
  | nil => intro st v h; exact Or.inl h
  | cons u rest ih =>
    intro st v h
    rw [visitList] at h
    split_ifs at h with h1
    · rcases ih _ v h with h2 | h2
      · rcases visitUrl_found_mem h2 with h3 | h3
        · exact Or.inl h3
        · exact Or.inr ⟨u, h3⟩
      · exact Or.inr h2
    · rcases ih _ v h with h2 | h2
      · exact Or.inl h2
      · exact Or.inr h2

theorem crawlLoop_fetched_mem {cfg : CrawlConfig} {env : CrawlUrl → PageData}
    {maxUrls : ℕ} :
    ∀ (d p : ℕ) (st : CrawlState) (v : CrawlUrl),
      v ∈ (crawlLoop cfg env maxUrls d p st).fetched →
      v ∈ st.fetched ∨ isAllowedByRobots cfg v = true := by
  intro d
  induction d with
  | zero => intro p st v h; exact Or.inl h
  | succ d ih =>
    intro p st v h
    simp only [crawlLoop] at h
    split_ifs at h with h1 h2
    · exact Or.inl h
    · exact visitList_fetched_mem _ _ _ h
    · rcases ih _ _ v h with h3 | h3
      · exact visitList_fetched_mem _ _ _ h3
      · exact Or.inr h3

theorem crawlLoop_found_mem {cfg : CrawlConfig} {env : CrawlUrl → PageData}
    {maxUrls : ℕ} :
    ∀ (d p : ℕ) (st : CrawlState) (v : CrawlUrl),
      v ∈ (crawlLoop cfg env maxUrls d p st).found →
      v ∈ st.found ∨ ∃ u, v ∈ (env u).links ∨ v ∈ (env u).forms := by
  intro d
  induction d with
  | zero => intro p st v h; exact Or.inl h
  | succ d ih =>
    intro p st v h
    simp only [crawlLoop] at h
    split_ifs at h with h1 h2
    · exact Or.inl h
    · exact visitList_found_mem _ _ _ h
    · rcases ih _ _ v h with h3 | h3
      · exact visitList_found_mem _ _ _ h3
      · exact Or.inr h3

theorem crawlLoop_visited_mem {cfg : CrawlConfig} {env : CrawlUrl → PageData}
    {maxUrls : ℕ} :
    ∀ (d p : ℕ) (st : CrawlState) (v : CrawlUrl),
      v ∈ (crawlLoop cfg env maxUrls d p st).visited →
      v ∈ st.visited ∨
        (shouldVisit cfg v = true ∧
          (v ∈ st.found ∨ ∃ u, v ∈ (env u).links ∨ v ∈ (env u).forms)) := by
  intro d
  induction d with
  | zero => intro p st v h; exact Or.inl h
  | succ d ih =>
    intro p st v h
    simp only [crawlLoop] at h
    split_ifs at h with h1 h2
    · exact Or.inl h
    · rcases visitList_visited_mem _ _ _ h with h3 | h3
      · exact Or.inl h3
      · refine Or.inr ⟨h3.1, Or.inl ?_⟩
        exact List.mem_of_mem_filter (List.mem_of_mem_take h3.2)
    · rcases ih _ _ v h with h3 | h3
      · rcases visitList_visited_mem _ _ _ h3 with h4 | h4
        · exact Or.inl h4
        · refine Or.inr ⟨h4.1, Or.inl ?_⟩
          exact List.mem_of_mem_filter (List.mem_of_mem_take h4.2)
      · rcases h3.2 with h4 | h4
        · rcases visitList_found_mem _ _ _ h4 with h5 | h5
          · exact Or.inr ⟨h3.1, Or.inl h5⟩
          · exact Or.inr ⟨h3.1, Or.inr h5⟩
        · exact Or.inr ⟨h3.1, Or.inr h4⟩

theorem parseRobotsLines_ne_nil :
    ∀ (lines : List String) (agent : String)
      (rules : List (String × List String)), rules ≠ [] →
      parseRobotsLines lines agent rules ≠ [] := by
  intro lines
  induction lines with
  | nil => intro agent rules h; exact h
  | cons line rest ih =>
    intro agent rules h
    rw [parseRobotsLines]
    split_ifs with h1
    · exact ih _ _ h
    · rcases hsp : splitFirstColon (strTrim line) with _ | dv
      · exact ih _ _ h
      · dsimp only
        split_ifs with h2 h3 h4
        · refine ih _ _ ?_
          unfold robotsAddAgent
          split_ifs with h5
          · exact h
          · simp
        · refine ih _ _ ?_
          unfold robotsAddDisallow
          simpa using h
        · exact ih _ _ h
        · exact ih _ _ h

theorem parseRobotsTxt_ne_nil (s : String) : parseRobotsTxt s ≠ [] :=
  parseRobotsLines_ne_nil _ "*" [("*", [])] (by simp)

/-! ## C3: crawl-scope invariant -/

/-- C3 (amended): every URL in the set returned by `scan` — and every
URL the crawler visits — has the seed's network location, hence the
seed's registrable domain (assuming all URLs produced by the
environment carry a non-empty netloc, as `urljoin`/`extract_forms`
resolution guarantees).  The `found` set, however, is *not* protected:
form-action URLs are inserted without any domain check and are only
removed by the final filter (see the counterexample). -/
theorem crawler_scope_invariant (cfg : CrawlConfig)
    (env : CrawlUrl → PageData) (seed : CrawlUrl) (maxDepth maxUrls : ℕ)
    (hmain : cfg.mainDomain = cfg.regDomain cfg.baseDomain)
    (hseed : seed.netloc ≠ "")
    (hlinks : ∀ u, ∀ l ∈ (env u).links, l.netloc ≠ "")
    (hforms : ∀ u, ∀ a ∈ (env u).forms, a.netloc ≠ "") :
    (∀ v ∈ (crawlScan cfg env seed maxDepth maxUrls).1,
      v.netloc = cfg.baseDomain ∧ cfg.regDomain v.netloc = cfg.mainDomain) ∧
    (∀ v ∈ (crawlScan cfg env seed maxDepth maxUrls).2.visited,
      v.netloc = cfg.baseDomain ∧ cfg.regDomain v.netloc = cfg.mainDomain) := by
  have hsources : ∀ v : CrawlUrl,
      (v ∈ ([seed] : List CrawlUrl) ∨
        ∃ u, v ∈ (env u).links ∨ v ∈ (env u).forms) → v.netloc ≠ "" := by
    rintro v (hv | ⟨u, hv | hv⟩)
    · rw [List.mem_singleton.1 hv]
      exact hseed
    · exact hlinks u v hv
    · exact hforms u v hv
  have hbase : ∀ v : CrawlUrl, shouldVisit cfg v = true → v.netloc ≠ "" →
      v.netloc = cfg.baseDomain ∧ cfg.regDomain v.netloc = cfg.mainDomain := by
    intro v hsv hne
    rcases shouldVisit_netloc hsv with h | h
    · exact absurd h hne
    · exact ⟨h, by rw [h, hmain]⟩
  constructor
  · intro v hv
    unfold crawlScan at hv
    rw [List.mem_filter] at hv
    refine hbase v hv.2 (hsources v ?_)
    exact crawlLoop_found_mem _ _ _ v hv.1
  · intro v hv
    unfold crawlScan at hv
    rcases crawlLoop_visited_mem _ _ _ v hv with h | h
    · exact absurd h (List.not_mem_nil v)
    · exact hbase v h.1 (hsources v h.2)

/-- Witness for C3 at the concrete configuration: the seed is in the
returned set (with `max_depth = 1`, `max_urls = 10`), and the theorem
yields its domain facts. -/
theorem crawler_scope_invariant_witness :
    (⟨"host.com", "/", ""⟩ : CrawlUrl) ∈
      (crawlScan c3Cfg c3Env ⟨"host.com", "/", ""⟩ 1 10).1 ∧
    ((⟨"host.com", "/", ""⟩ : CrawlUrl).netloc = c3Cfg.baseDomain ∧
      c3Cfg.regDomain (⟨"host.com", "/", ""⟩ : CrawlUrl).netloc =
        c3Cfg.mainDomain) := by
  have hmem : (⟨"host.com", "/", ""⟩ : CrawlUrl) ∈
      (crawlScan c3Cfg c3Env ⟨"host.com", "/", ""⟩ 1 10).1 := by decide
  refine ⟨hmem, ?_⟩
  refine (crawler_scope_invariant c3Cfg c3Env ⟨"host.com", "/", ""⟩ 1 10
    rfl (by decide) ?_ ?_).1 _ hmem
  · intro u l hl
    unfold c3Env at hl
    split_ifs at hl
    · rcases List.mem_singleton.1 hl with rfl
      decide
    · exact absurd hl (List.not_mem_nil l)
  · intro u a ha
    unfold c3Env at ha
    split_ifs at ha
    · rcases List.mem_singleton.1 ha with rfl
      decide
    · exact absurd ha (List.not_mem_nil a)

/-- C3 counterexample: visiting the seed inserts the foreign form
action `other.com/steal` into `found_urls` even though its registrable
domain differs from the seed's — the crawler does insert
foreign-domain URLs into `found`. -/
theorem crawler_foreign_form_action_in_found :
    (⟨"other.com", "/steal", ""⟩ : CrawlUrl) ∈
      (crawlScan c3Cfg c3Env ⟨"host.com", "/", ""⟩ 0 10).2.found ∧
    c3Cfg.regDomain (⟨"other.com", "/steal", ""⟩ : CrawlUrl).netloc ≠
      c3Cfg.mainDomain := by
  constructor
  · decide
  · decide

/-! ## C7: robots.txt compliance -/

/-- C7: with robots compliance enabled (the default), the crawler never
fetches a URL whose path starts with a `User-agent: *` disallow prefix
of the parsed robots.txt; with compliance disabled, the same URL is
fetched. -/
theorem robots_disallow_never_fetched (cfg : CrawlConfig)
    (env : CrawlUrl → PageData) (seed : CrawlUrl) (maxDepth maxUrls : ℕ)
    (robotsTxt : String) (d : String) (u : CrawlUrl)
    (hfollow : cfg.followRobots = true)
    (hchecked : cfg.robotsChecked = true)
    (hrules : cfg.robotsRules = parseRobotsTxt robotsTxt)
    (hd : d ∈ robotsStarRules cfg.robotsRules)
    (hpath : strStartsWith u.path d = true) :
    u ∉ (crawlScan cfg env seed maxDepth maxUrls).2.fetched ∧
    (∀ cfg' : CrawlConfig, cfg'.followRobots = false →
      ∀ st : CrawlState, u ∉ st.visited →
        u ∈ (visitUrl cfg' env st u).fetched) := by
  constructor
  · intro hmem
    have hdis : isAllowedByRobots cfg u = false := by
      unfold isAllowedByRobots
      rw [hfollow, hchecked, hrules]
      rw [if_neg (by simp)]
      rw [if_neg (by simp [parseRobotsTxt_ne_nil robotsTxt])]
      have hany : (robotsStarRules (parseRobotsTxt robotsTxt)).any
          (fun dd => strStartsWith u.path dd) = true :=
        List.any_eq_true.2 ⟨d, hrules ▸ hd, hpath⟩
      rw [hany]
      rfl
    rcases crawlLoop_fetched_mem _ _ _ u hmem with h | h
    · exact List.not_mem_nil u h
    · rw [hdis] at h
      cases h
  · intro cfg' hoff st hnv
    have hallow : isAllowedByRobots cfg' u = true := by
      unfold isAllowedByRobots
      rw [hoff]
      rfl
    simp only [visitUrl, if_neg hnv, hallow, Bool.not_true,
      Bool.false_eq_true, if_false]
    split_ifs with h1
    · rw [addForms_fetched, addLinks_fetched]
      exact List.mem_append.2 (Or.inr (List.mem_singleton.2 rfl))
    · exact List.mem_append.2 (Or.inr (List.mem_singleton.2 rfl))

/-- Witness for C7 at the concrete configuration: `/admin/secret` is
never fetched during the crawl, and the robots-disabled variant does
fetch it. -/
theorem robots_disallow_never_fetched_witness :
    (⟨"host.com", "/admin/secret", ""⟩ : CrawlUrl) ∉
      (crawlScan c7Cfg c7Env ⟨"host.com", "/", ""⟩ 1 10).2.fetched ∧
    (⟨"host.com", "/admin/secret", ""⟩ : CrawlUrl) ∈
      (visitUrl ⟨false, true, c7Cfg.robotsRules, "host.com", "host.com",
          fun s => s⟩ c7Env ⟨[], [], []⟩
        ⟨"host.com", "/admin/secret", ""⟩).fetched := by
  have h := robots_disallow_never_fetched c7Cfg c7Env ⟨"host.com", "/", ""⟩
    1 10 "User-agent: *\nDisallow: /admin" "/admin"
    ⟨"host.com", "/admin/secret", ""⟩ rfl rfl rfl (by decide) (by decide)
  exact ⟨h.1,
    h.2 ⟨false, true, c7Cfg.robotsRules, "host.com", "host.com", fun s => s⟩
      rfl ⟨[], [], []⟩ (by decide)⟩

/-! ## C9: idempotence of `_normalize_url`

The hard part is that re-parsing the re-encoded query recovers the
grouped, sorted entries exactly; this rests on the
`unquote_plus ∘ quote_plus = id` roundtrip (for single-byte code
points), on splitting the joined chunks, and on regrouping the
flattened pairs. -/

theorem toNat_ofNat_of_lt {m : ℕ} (h : m < 256) : (Char.ofNat m).toNat = m := by
  have hv : m.isValidChar := Or.inl (by omega)
  simp [Char.ofNat, hv, Char.ofNatAux, Char.toNat, UInt32.toNat,
    BitVec.toNat_ofNatLt]

theorem hexUpper_ge {n : ℕ} (h : 15 ≤ n) : hexUpper n = 'F' := by
  unfold hexUpper
  repeat rw [if_neg (by omega)]

theorem hexUpper_mem (n : ℕ) :
    hexUpper n ∈ ['0','1','2','3','4','5','6','7','8','9','A','B','C','D',
      'E','F'] := by
  rcases Nat.lt_or_ge n 16 with h | h
  · interval_cases n <;> decide
  · rw [hexUpper_ge (by omega)]
    decide

theorem hexUpper_isHex (n : ℕ) : isHexDigit (hexUpper n) = true := by
  have hm := hexUpper_mem n
  simp only [List.mem_cons, List.not_mem_nil, or_false] at hm
  rcases hm with h|h|h|h|h|h|h|h|h|h|h|h|h|h|h|h <;> rw [h] <;> decide

theorem hexUpper_ne_special (n : ℕ) :
    hexUpper n ≠ '&' ∧ hexUpper n ≠ '=' ∧ hexUpper n ≠ '+' ∧
      hexUpper n ≠ '%' := by
  have hm := hexUpper_mem n
  simp only [List.mem_cons, List.not_mem_nil, or_false] at hm
  rcases hm with h|h|h|h|h|h|h|h|h|h|h|h|h|h|h|h <;> rw [h] <;>
    exact ⟨by decide, by decide, by decide, by decide⟩

theorem hexVal_hexUpper {n : ℕ} (h : n < 16) : hexVal (hexUpper n) = n := by
  interval_cases n <;> decide

theorem hexVal_lt {c : Char} (h : isHexDigit c = true) : hexVal c < 16 := by
  unfold isHexDigit at h
  unfold hexVal
  simp only [Bool.or_eq_true, Bool.and_eq_true, decide_eq_true_eq] at h
  split_ifs with h1 h2 <;>
    simp only [Bool.and_eq_true, decide_eq_true_eq, Bool.not_eq_true,
      Bool.and_eq_false_iff, decide_eq_false_iff_not, not_le] at * <;>
    omega

theorem unquote_cons_other {c : Char} {l : List Char} (h1 : c ≠ '+')
    (h2 : c ≠ '%') :
    unquotePlusChars (c :: l) = c :: unquotePlusChars l := by
  rw [unquotePlusChars.eq_def]
  split <;> simp_all

theorem unquote_escape {a b : Char} {l : List Char}
    (ha : isHexDigit a = true) (hb : isHexDigit b = true) :
    unquotePlusChars ('%' :: a :: b :: l) =
      Char.ofNat (hexVal a * 16 + hexVal b) :: unquotePlusChars l := by
  rw [unquotePlusChars.eq_def]
  split <;> simp_all
  rename_i c rest hplus hno heq
  exact absurd heq.2.symm (hno a b l heq.1.symm)

theorem quoteChar_ne_nil (c : Char) : quoteChar c ≠ [] := by
  unfold quoteChar
  split_ifs <;> simp

theorem unquote_quoteChar_append (c : Char) (hc : c.toNat < 256)
    (l : List Char) :
    unquotePlusChars (quoteChar c ++ l) = c :: unquotePlusChars l := by
  unfold quoteChar
  split_ifs with hsafe hspace
  · have h1 : c ≠ '+' := by
      intro h
      rw [h] at hsafe
      exact absurd hsafe (by decide)
    have h2 : c ≠ '%' := by
      intro h
      rw [h] at hsafe
      exact absurd hsafe (by decide)
    simpa using unquote_cons_other h1 h2
  · subst hspace
    rfl
  · rw [List.cons_append, List.cons_append, List.cons_append,
      List.nil_append]
    rw [unquote_escape (hexUpper_isHex _) (hexUpper_isHex _)]
    congr 1
    rw [hexVal_hexUpper (by omega), hexVal_hexUpper (by omega)]
    have : c.toNat / 16 % 16 * 16 + c.toNat % 16 = c.toNat := by omega
    rw [this, Char.ofNat_toNat]

theorem quoteChars_append (s t : List Char) :
    quoteChars (s ++ t) = quoteChars s ++ quoteChars t := by
  induction s with
  | nil => rfl
  | cons c rest ih => simp [quoteChars, ih]

theorem unquote_quoteChars_append (s : List Char)
    (hs : ∀ c ∈ s, c.toNat < 256) (l : List Char) :
    unquotePlusChars (quoteChars s ++ l) = s ++ unquotePlusChars l := by
  induction s with
  | nil => rfl
  | cons c rest ih =>
    rw [quoteChars]
    rw [List.append_assoc]
    rw [unquote_quoteChar_append c (hs c (List.mem_cons_self c rest))]
    rw [ih (fun x hx => hs x (List.mem_cons_of_mem c hx))]
    rfl

theorem unquote_quoteChars (s : List Char) (hs : ∀ c ∈ s, c.toNat < 256) :
    unquotePlusChars (quoteChars s) = s := by
  have := unquote_quoteChars_append s hs []
  simpa [unquotePlusChars] using this

theorem quoteChars_ne_nil {s : List Char} (h : s ≠ []) :
    quoteChars s ≠ [] := by
  cases s with
  | nil => exact absurd rfl h
  | cons c rest =>
    rw [quoteChars]
    intro hcontra
    exact quoteChar_ne_nil c (List.append_eq_nil.1 hcontra).1

theorem quoteChar_mem_ne {c x : Char} (hx : x ∈ quoteChar c) :
    x ≠ '&' ∧ x ≠ '=' := by
  unfold quoteChar at hx
  split_ifs at hx with h1 h2
  · rcases List.mem_singleton.1 hx with rfl
    constructor
    · intro h
      rw [h] at h1
      exact absurd h1 (by decide)
    · intro h
      rw [h] at h1
      exact absurd h1 (by decide)
  · rcases List.mem_singleton.1 hx with rfl
    exact ⟨by decide, by decide⟩
  · rcases List.mem_cons.1 hx with rfl | hx2
    · exact ⟨by decide, by decide⟩
    · rcases List.mem_cons.1 hx2 with rfl | hx3
      · exact ⟨(hexUpper_ne_special _).1, (hexUpper_ne_special _).2.1⟩
      · rcases List.mem_singleton.1 hx3 with rfl
        exact ⟨(hexUpper_ne_special _).1, (hexUpper_ne_special _).2.1⟩

theorem quoteChars_mem_ne {s : List Char} {x : Char}
    (hx : x ∈ quoteChars s) : x ≠ '&' ∧ x ≠ '=' := by
  induction s with
  | nil => exact absurd hx (List.not_mem_nil x)
  | cons c rest ih =>
    rw [quoteChars] at hx
    rcases List.mem_append.1 hx with h | h
    · exact quoteChar_mem_ne h
    · exact ih h

theorem unquotePlusChars_bound :
    ∀ (l : List Char), (∀ c ∈ l, c.toNat < 256) →
      ∀ c ∈ unquotePlusChars l, c.toNat < 256 := by
  intro l
  induction l using unquotePlusChars.induct with
  | case1 =>
    intro _ c hc
    exact absurd hc (List.not_mem_nil c)
  | case2 rest ih =>
    intro hl c hc
    rw [unquotePlusChars] at hc
    rcases List.mem_cons.1 hc with rfl | hc2
    · decide
    · exact ih (fun x hx => hl x (List.mem_cons_of_mem _ hx)) c hc2
  | case3 a b rest2 hhex ih =>
    intro hl c hc
    rw [unquotePlusChars, if_pos hhex] at hc
    rcases List.mem_cons.1 hc with rfl | hc2
    · rw [Bool.and_eq_true] at hhex
      have ha := hexVal_lt hhex.1
      have hb := hexVal_lt hhex.2
      rw [toNat_ofNat_of_lt (by omega)]
      omega
    · exact ih (fun x hx => hl x (List.mem_cons_of_mem _
        (List.mem_cons_of_mem _ (List.mem_cons_of_mem _ hx)))) c hc2
  | case4 a b rest2 hhex ih =>
    intro hl c hc
    rw [unquotePlusChars, if_neg hhex] at hc
    rcases List.mem_cons.1 hc with rfl | hc2
    · exact hl '%' (List.mem_cons_self _ _)
    · exact ih (fun x hx => hl x (List.mem_cons_of_mem _ hx)) c hc2
  | case5 c rest h1 h2 ih =>
    intro hl x hx
    have hrw : unquotePlusChars (c :: rest) = c :: unquotePlusChars rest := by
      rw [unquotePlusChars.eq_def]
      split <;> simp_all
    rw [hrw] at hx
    rcases List.mem_cons.1 hx with rfl | hx2
    · exact hl x (List.mem_cons_self _ _)
    · exact ih (fun y hy => hl y (List.mem_cons_of_mem _ hy)) x hx2

theorem splitOnChar_ne_nil (sep : Char) (l : List Char) :
    splitOnChar sep l ≠ [] := by
  induction l with
  | nil => simp [splitOnChar]
  | cons c rest ih =>
    rw [splitOnChar]
    split <;> split_ifs <;> simp

theorem splitOnChar_no_sep {sep : Char} {l : List Char} (h : sep ∉ l) :
    splitOnChar sep l = [l] := by
  induction l with
  | nil => rfl
  | cons c rest ih =>
    have hc : c ≠ sep := fun he => h (he ▸ List.mem_cons_self c rest)
    have hr : sep ∉ rest := fun hm => h (List.mem_cons_of_mem c hm)
    rw [splitOnChar, ih hr]
    simp [hc]

theorem splitOnChar_append_sep {sep : Char} {xs ys : List Char}
    (h : sep ∉ xs) :
    splitOnChar sep (xs ++ sep :: ys) = xs :: splitOnChar sep ys := by
  induction xs with
  | nil =>
    rw [List.nil_append, splitOnChar]
    cases hsp : splitOnChar sep ys with
    | nil => exact absurd hsp (splitOnChar_ne_nil sep ys)
    | cons p ps => simp
  | cons c rest ih =>
    have hc : c ≠ sep := fun he => h (he ▸ List.mem_cons_self c rest)
    have hr : sep ∉ rest := fun hm => h (List.mem_cons_of_mem c hm)
    rw [List.cons_append, splitOnChar, ih hr]
    simp [hc]

theorem splitOnChar_joinChar {sep : Char} {parts : List (List Char)}
    (hne : parts ≠ []) (h : ∀ p ∈ parts, sep ∉ p) :
    splitOnChar sep (joinChar sep parts) = parts := by
  induction parts with
  | nil => exact absurd rfl hne
  | cons p ps ih =>
    cases ps with
    | nil => exact splitOnChar_no_sep (h p (List.mem_cons_self p []))
    | cons q qs =>
      have hjoin : joinChar sep (p :: q :: qs) =
          p ++ sep :: joinChar sep (q :: qs) := rfl
      rw [hjoin, splitOnChar_append_sep (h p (List.mem_cons_self p _)),
        ih (List.cons_ne_nil q qs)
          (fun r hr => h r (List.mem_cons_of_mem p hr))]

theorem splitOnChar_chars {sep : Char} {l p : List Char} {c : Char}
    (hp : p ∈ splitOnChar sep l) (hc : c ∈ p) : c ∈ l := by
  induction l generalizing p with
  | nil =>
    simp only [splitOnChar, List.mem_singleton] at hp
    subst hp
    exact absurd hc (List.not_mem_nil c)
  | cons d rest ih =>
    rw [splitOnChar] at hp
    cases hsp : splitOnChar sep rest with
    | nil => exact absurd hsp (splitOnChar_ne_nil sep rest)
    | cons q qs =>
      rw [hsp] at hp
      split_ifs at hp with hd
      · rcases List.mem_cons.1 hp with rfl | hp2
        · exact absurd hc (List.not_mem_nil c)
        · exact List.mem_cons_of_mem d (ih (by rw [hsp]; exact hp2) hc)
      · rcases List.mem_cons.1 hp with rfl | hp2
        · rcases List.mem_cons.1 hc with rfl | hc2
          · exact List.mem_cons_self c rest
          · exact List.mem_cons_of_mem d
              (ih (by rw [hsp]; exact List.mem_cons_self q qs) hc2)
        · exact List.mem_cons_of_mem d
            (ih (by rw [hsp]; exact List.mem_cons_of_mem q hp2) hc)

theorem splitFirstChar_chars {sep : Char} {l a b : List Char}
    (h : splitFirstChar sep l = some (a, b)) :
    (∀ c ∈ a, c ∈ l) ∧ (∀ c ∈ b, c ∈ l) := by
  induction l generalizing a b with
  | nil => simp [splitFirstChar] at h
  | cons d rest ih =>
    rw [splitFirstChar] at h
    split_ifs at h with hd
    · simp only [Option.some.injEq, Prod.mk.injEq] at h
      obtain ⟨rfl, rfl⟩ := h
      exact ⟨fun c hc => absurd hc (List.not_mem_nil c),
        fun c hc => List.mem_cons_of_mem d hc⟩
    · cases hsp : splitFirstChar sep rest with
      | none => rw [hsp] at h; exact absurd h (by simp)
      | some ab =>
        rw [hsp] at h
        simp only [Option.some.injEq, Prod.mk.injEq] at h
        obtain ⟨h1, h2⟩ := h
        have hih := ih (a := ab.1) (b := ab.2) (by rw [hsp])
        constructor
        · intro c hc
          rw [← h1] at hc
          rcases List.mem_cons.1 hc with rfl | hc2
          · exact List.mem_cons_self c rest
          · exact List.mem_cons_of_mem d (hih.1 c hc2)
        · intro c hc
          rw [← h2] at hc
          exact List.mem_cons_of_mem d (hih.2 c hc)

theorem splitFirstChar_append {sep : Char} {xs ys : List Char}
    (h : sep ∉ xs) :
    splitFirstChar sep (xs ++ sep :: ys) = some (xs, ys) := by
  induction xs with
  | nil => simp [splitFirstChar]
  | cons c rest ih =>
    have hc : c ≠ sep := fun he => h (he ▸ List.mem_cons_self c rest)
    have hr : sep ∉ rest := fun hm => h (List.mem_cons_of_mem c hm)
    rw [List.cons_append, splitFirstChar, if_neg hc, ih hr]

theorem lexLe_total (a b : List Char) :
    lexLe a b = true ∨ lexLe b a = true := by
  induction a generalizing b with
  | nil => exact Or.inl rfl
  | cons x xs ih =>
    cases b with
    | nil => exact Or.inr rfl
    | cons y ys =>
      by_cases h1 : x.toNat < y.toNat
      · left
        simp [lexLe, h1]
      · by_cases h2 : x.toNat = y.toNat
        · rcases ih ys with h | h
          · left
            simp [lexLe, h1, h2, h]
          · right
            have h3 : ¬ y.toNat < x.toNat := by omega
            simp [lexLe, h3, h2.symm, h]
        · right
          have h3 : y.toNat < x.toNat := by omega
          simp [lexLe, h3]

theorem lexLe_trans {a b c : List Char} (hab : lexLe a b = true)
    (hbc : lexLe b c = true) : lexLe a c = true := by
  induction a generalizing b c with
  | nil => rfl
  | cons x xs ih =>
    cases b with
    | nil => simp [lexLe] at hab
    | cons y ys =>
      cases c with
      | nil => simp [lexLe] at hbc
      | cons z zs =>
        simp only [lexLe] at hab hbc ⊢
        split_ifs at hab hbc ⊢ <;>
          first
            | rfl
            | (exact ih hab hbc)
            | omega


theorem unquote_ne_nil {l : List Char} (h : l ≠ []) :
    unquotePlusChars l ≠ [] := by
  cases l with
  | nil => exact absurd rfl h
  | cons c rest =>
    rw [unquotePlusChars.eq_def]
    split <;> (try split_ifs) <;> simp_all


theorem parseQslPair_encodePair {k v : List Char} (hv : v ≠ [])
    (hk : ∀ c ∈ k, c.toNat < 256) (hvc : ∀ c ∈ v, c.toNat < 256) :
    parseQslPair (encodePair k v) = some (k, v) := by
  unfold parseQslPair encodePair
  rw [if_neg (by simp)]
  rw [splitFirstChar_append (fun hm => (quoteChars_mem_ne hm).2 rfl)]
  dsimp only
  rw [if_neg (quoteChars_ne_nil hv)]
  rw [unquote_quoteChars k hk, unquote_quoteChars v hvc]

theorem filterMap_chunks {k : List Char} {vs : List (List Char)}
    (hk : ∀ c ∈ k, c.toNat < 256)
    (hvs : ∀ v ∈ vs, v ≠ [] ∧ ∀ c ∈ v, c.toNat < 256) :
    (vs.map (fun v => encodePair k v)).filterMap parseQslPair =
      vs.map (fun v => (k, v)) := by
  induction vs with
  | nil => rfl
  | cons v vs' ih =>
    have he := parseQslPair_encodePair
      (hvs v (List.mem_cons_self v vs')).1 hk
      (hvs v (List.mem_cons_self v vs')).2
    simp only [List.map_cons, List.filterMap_cons, he,
      ih (fun w hw => hvs w (List.mem_cons_of_mem v hw))]

theorem encodedChunks_cons (e : List Char × List (List Char))
    (A : List (List Char × List (List Char))) :
    encodedChunks (e :: A) =
      e.2.map (fun v => encodePair e.1 v) ++ encodedChunks A := by
  simp [encodedChunks]

theorem pairsOf_cons (e : List Char × List (List Char))
    (A : List (List Char × List (List Char))) :
    pairsOf (e :: A) = e.2.map (fun v => (e.1, v)) ++ pairsOf A := by
  simp [pairsOf]

theorem filterMap_encodedChunks {A : List (List Char × List (List Char))}
    (hok : ∀ e ∈ A, queryEntryOk e) :
    (encodedChunks A).filterMap parseQslPair = pairsOf A := by
  induction A with
  | nil => rfl
  | cons e A2 ih =>
    rw [encodedChunks_cons, List.filterMap_append,
      filterMap_chunks (hok e (List.mem_cons_self e A2)).2.1
        (hok e (List.mem_cons_self e A2)).2.2,
      ih (fun x hx => hok x (List.mem_cons_of_mem e hx)), pairsOf_cons]

theorem encodedChunks_no_amp {A : List (List Char × List (List Char))}
    {p : List Char} (hp : p ∈ encodedChunks A) : '&' ∉ p := by
  intro hc
  unfold encodedChunks at hp
  rcases List.mem_flatMap.1 hp with ⟨e, he, hpm⟩
  rcases List.mem_map.1 hpm with ⟨v, hv, rfl⟩
  unfold encodePair at hc
  rcases List.mem_append.1 hc with h | h
  · exact (quoteChars_mem_ne h).1 rfl
  · rcases List.mem_cons.1 h with h2 | h2
    · exact absurd h2 (by decide)
    · exact (quoteChars_mem_ne h2).1 rfl


theorem qsInsert_fresh {d : List (List Char × List (List Char))}
    {k v : List Char} (h : ∀ e ∈ d, e.1 ≠ k) :
    qsInsert d k v = d ++ [(k, [v])] := by
  unfold qsInsert
  rw [if_neg]
  intro hany
  simp only [List.any_eq_true, decide_eq_true_eq] at hany
  obtain ⟨e, he, heq⟩ := hany
  exact h e he heq

theorem foldl_qsInsert_same {d : List (List Char × List (List Char))}
    {k : List Char} {vs : List (List Char)} {acc : List (List Char)}
    (hd : ∀ e ∈ d, e.1 ≠ k) :
    List.foldl (fun d kv => qsInsert d kv.1 kv.2) (d ++ [(k, acc)])
      (vs.map (fun v => (k, v))) = d ++ [(k, acc ++ vs)] := by
  induction vs generalizing acc with
  | nil => simp
  | cons v vs2 ih =>
    rw [List.map_cons, List.foldl_cons]
    have hstep : qsInsert (d ++ [(k, acc)]) k v = d ++ [(k, acc ++ [v])] := by
      unfold qsInsert
      rw [if_pos]
      · rw [List.map_append]
        congr 1
        · conv_rhs => rw [← List.map_id d]
          apply List.map_congr_left
          intro e he
          simp [hd e he]
        · simp
      · simp
    dsimp only
    rw [hstep, ih]
    simp

theorem foldl_qsInsert_group :
    ∀ {A : List (List Char × List (List Char))}
      {d : List (List Char × List (List Char))},
      (∀ e ∈ d, ∀ e2 ∈ A, e.1 ≠ e2.1) →
      (A.map Prod.fst).Nodup → (∀ e ∈ A, e.2 ≠ []) →
      List.foldl (fun d kv => qsInsert d kv.1 kv.2) d (pairsOf A) =
        d ++ A := by
  intro A
  induction A with
  | nil =>
    intro d _ _ _
    simp [pairsOf]
  | cons e A2 ih =>
    intro d hdisj hnodup hvals
    obtain ⟨k, vs⟩ := e
    rw [pairsOf_cons, List.foldl_append]
    dsimp only at *
    have hvs : vs ≠ [] := hvals (k, vs) (List.mem_cons_self _ _)
    cases vs with
    | nil => exact absurd rfl hvs
    | cons v vs2 =>
      have hfresh : ∀ e2 ∈ d, e2.1 ≠ k :=
        fun e2 he2 => hdisj e2 he2 (k, v :: vs2) (List.mem_cons_self _ _)
      have hsame : List.foldl (fun d kv => qsInsert d kv.1 kv.2) d
          ((v :: vs2).map (fun w => (k, w))) = d ++ [(k, v :: vs2)] := by
        rw [List.map_cons, List.foldl_cons]
        dsimp only
        rw [qsInsert_fresh hfresh, foldl_qsInsert_same hfresh]
        simp
      rw [hsame]
      have hnodup2 : (A2.map Prod.fst).Nodup := (List.nodup_cons.1 hnodup).2
      have hknotin : k ∉ A2.map Prod.fst := (List.nodup_cons.1 hnodup).1
      have hdisj2 : ∀ e2 ∈ d ++ [(k, v :: vs2)], ∀ e3 ∈ A2,
          e2.1 ≠ e3.1 := by
        intro e2 he2 e3 he3
        rcases List.mem_append.1 he2 with h | h
        · exact hdisj e2 h e3 (List.mem_cons_of_mem _ he3)
        · rcases List.mem_singleton.1 h with rfl
          intro heq
          exact hknotin (List.mem_map.2 ⟨e3, he3, heq.symm⟩)
      rw [ih hdisj2 hnodup2
        (fun e3 he3 => hvals e3 (List.mem_cons_of_mem _ he3))]
      simp


theorem parseQslPair_props {p k2 v2 : List Char}
    (hp : ∀ c ∈ p, c.toNat < 256) (h : parseQslPair p = some (k2, v2)) :
    v2 ≠ [] ∧ (∀ c ∈ k2, c.toNat < 256) ∧ (∀ c ∈ v2, c.toNat < 256) := by
  unfold parseQslPair at h
  split_ifs at h with hpe
  cases hsp : splitFirstChar '=' p with
  | none =>
    rw [hsp] at h
    simp at h
  | some nv =>
    rw [hsp] at h
    dsimp only at h
    split_ifs at h with hnv
    simp only [Option.some.injEq, Prod.mk.injEq] at h
    obtain ⟨h1, h2⟩ := h
    have hch := splitFirstChar_chars (l := p) (a := nv.1) (b := nv.2)
      (by rw [hsp])
    refine ⟨?_, ?_, ?_⟩
    · rw [← h2]
      exact unquote_ne_nil hnv
    · rw [← h1]
      exact unquotePlusChars_bound nv.1 (fun c hc => hp c (hch.1 c hc))
    · rw [← h2]
      exact unquotePlusChars_bound nv.2 (fun c hc => hp c (hch.2 c hc))

theorem parseQsl_props {q : List Char} (hq : ∀ c ∈ q, c.toNat < 256) :
    ∀ kv ∈ parseQsl q, kv.2 ≠ [] ∧ (∀ c ∈ kv.1, c.toNat < 256) ∧
      (∀ c ∈ kv.2, c.toNat < 256) := by
  intro kv hkv
  obtain ⟨k2, v2⟩ := kv
  unfold parseQsl at hkv
  rcases List.mem_filterMap.1 hkv with ⟨p, hp, hpp⟩
  have hpc : ∀ c ∈ p, c.toNat < 256 :=
    fun c hc => hq c (splitOnChar_chars hp hc)
  exact parseQslPair_props hpc hpp

theorem qsInsert_entry_ok {d : List (List Char × List (List Char))}
    {k v : List Char} (hd : ∀ e ∈ d, queryEntryOk e)
    (hk : ∀ c ∈ k, c.toNat < 256) (hv : v ≠ [])
    (hvc : ∀ c ∈ v, c.toNat < 256) :
    ∀ e ∈ qsInsert d k v, queryEntryOk e := by
  intro e he
  unfold qsInsert at he
  split_ifs at he with hany
  · rcases List.mem_map.1 he with ⟨e2, he2, rfl⟩
    by_cases hek : e2.1 = k
    · rw [if_pos hek]
      obtain ⟨hne, hkc, hvs⟩ := hd e2 he2
      refine ⟨by simp, hkc, ?_⟩
      intro w hw
      rcases List.mem_append.1 hw with h | h
      · exact hvs w h
      · rcases List.mem_singleton.1 h with rfl
        exact ⟨hv, hvc⟩
    · rw [if_neg hek]
      exact hd e2 he2
  · rcases List.mem_append.1 he with h | h
    · exact hd e h
    · rcases List.mem_singleton.1 h with rfl
      refine ⟨by simp, hk, ?_⟩
      intro w hw
      rcases List.mem_singleton.1 hw with rfl
      exact ⟨hv, hvc⟩

theorem foldl_qsInsert_ok {l : List (List Char × List Char)}
    {d : List (List Char × List (List Char))}
    (hl : ∀ kv ∈ l, kv.2 ≠ [] ∧ (∀ c ∈ kv.1, c.toNat < 256) ∧
      (∀ c ∈ kv.2, c.toNat < 256))
    (hd : ∀ e ∈ d, queryEntryOk e) :
    ∀ e ∈ l.foldl (fun d kv => qsInsert d kv.1 kv.2) d, queryEntryOk e := by
  induction l generalizing d with
  | nil => exact hd
  | cons kv l2 ih =>
    rw [List.foldl_cons]
    exact ih (fun x hx => hl x (List.mem_cons_of_mem _ hx))
      (qsInsert_entry_ok hd (hl kv (List.mem_cons_self _ _)).2.1
        (hl kv (List.mem_cons_self _ _)).1
        (hl kv (List.mem_cons_self _ _)).2.2)

theorem qsInsert_keys {d : List (List Char × List (List Char))}
    {k v : List Char} :
    (qsInsert d k v).map Prod.fst =
      if d.any (fun e => e.1 = k) then d.map Prod.fst
      else d.map Prod.fst ++ [k] := by
  unfold qsInsert
  split_ifs with h
  · rw [List.map_map]
    apply List.map_congr_left
    intro e he
    by_cases hek : e.1 = k <;> simp [hek]
  · simp

theorem foldl_qsInsert_keys_nodup {l : List (List Char × List Char)} :
    ∀ {d : List (List Char × List (List Char))}, (d.map Prod.fst).Nodup →
    ((l.foldl (fun d kv => qsInsert d kv.1 kv.2) d).map Prod.fst).Nodup := by
  induction l with
  | nil =>
    intro d hd
    exact hd
  | cons kv l2 ih =>
    intro d hd
    rw [List.foldl_cons]
    apply ih
    dsimp only
    rw [qsInsert_keys]
    split_ifs with h
    · exact hd
    · apply List.Nodup.append hd (List.nodup_singleton _)
      intro a ha hb
      rcases List.mem_singleton.1 hb with rfl
      rcases List.mem_map.1 ha with ⟨e, he, heq⟩
      apply h
      simp only [List.any_eq_true, decide_eq_true_eq]
      exact ⟨e, he, heq⟩

theorem parseQs_entry_ok {q : String} (hq : ∀ c ∈ q.toList, c.toNat < 256) :
    ∀ e ∈ parseQs q, queryEntryOk e := by
  unfold parseQs
  exact foldl_qsInsert_ok (parseQsl_props hq)
    (fun e he => absurd he (List.not_mem_nil e))

theorem parseQs_keys_nodup (q : String) :
    ((parseQs q).map Prod.fst).Nodup := by
  unfold parseQs
  exact foldl_qsInsert_keys_nodup (by simp)


theorem parseQs_urlencode {A : List (List Char × List (List Char))}
    (hnodup : (A.map Prod.fst).Nodup) (hok : ∀ e ∈ A, queryEntryOk e)
    (hchunks : encodedChunks A ≠ []) :
    parseQs (String.mk (urlencodeSeq A)) = A := by
  unfold parseQs
  have htl : (String.mk (urlencodeSeq A)).toList = urlencodeSeq A := rfl
  rw [htl]
  have hqsl : parseQsl (urlencodeSeq A) = pairsOf A := by
    unfold parseQsl urlencodeSeq
    rw [splitOnChar_joinChar hchunks (fun p hp => encodedChunks_no_amp hp),
      filterMap_encodedChunks hok]
  rw [hqsl]
  have hgrp := foldl_qsInsert_group (A := A) (d := [])
    (fun e he => absurd he (List.not_mem_nil e)) hnodup
    (fun e he => (hok e he).1)
  simpa using hgrp

/-- C9: `_normalize_url` is idempotent (for queries of single-byte code
points, the regime in which one character is one byte as in the Python
`urllib` model): defaulting the path to `/`, re-parsing, grouping and
sorting the query and re-encoding it, and copying the other four
components are all stable under a second application. -/
theorem normalize_url_idempotent (u : UrlParts)
    (h : ∀ c ∈ u.query.toList, c.toNat < 256) :
    normalizeUrl (normalizeUrl u) = normalizeUrl u := by
  simp only [normalizeUrl, UrlParts.mk.injEq]
  refine ⟨trivial, trivial, ?_, trivial, ?_, trivial⟩
  · by_cases hp : u.path = ""
    · rw [if_pos hp, if_neg (by decide : ¬("/" : String) = "")]
    · rw [if_neg hp, if_neg hp]
  · by_cases hq : u.query = ""
    · have e1 : (if u.query ≠ "" then
          String.mk (urlencodeSeq (sortQueryKeys (parseQs u.query)))
        else "") = "" := if_neg (fun hc => hc hq)
      rw [e1, if_neg (fun hc => hc rfl)]
    · have e1 : (if u.query ≠ "" then
          String.mk (urlencodeSeq (sortQueryKeys (parseQs u.query)))
        else "") = String.mk (urlencodeSeq (sortQueryKeys (parseQs u.query))) :=
        if_pos hq
      rw [e1]
      by_cases hchunks : encodedChunks (sortQueryKeys (parseQs u.query)) = []
      · have hu : urlencodeSeq (sortQueryKeys (parseQs u.query)) = [] := by
          unfold urlencodeSeq
          rw [hchunks]
          rfl
        rw [hu]
        have hmk : String.mk ([] : List Char) = "" := rfl
        rw [hmk, if_neg (fun hc => hc rfl)]
      · have hok : ∀ e ∈ sortQueryKeys (parseQs u.query), queryEntryOk e := by
          intro e he
          exact parseQs_entry_ok h e
            ((List.perm_insertionSort keyLe (parseQs u.query)).mem_iff.1 he)
        have hnodup :
            ((sortQueryKeys (parseQs u.query)).map Prod.fst).Nodup := by
          have hperm :=
            (List.perm_insertionSort keyLe (parseQs u.query)).map Prod.fst
          exact hperm.nodup_iff.2 (parseQs_keys_nodup u.query)
        have hrt := parseQs_urlencode hnodup hok hchunks
        have hsorted : sortQueryKeys (sortQueryKeys (parseQs u.query)) =
            sortQueryKeys (parseQs u.query) := by
          haveI h1 : IsTotal (List Char × List (List Char)) keyLe :=
            ⟨fun a b => lexLe_total a.1 b.1⟩
          haveI h2 : IsTrans (List Char × List (List Char)) keyLe :=
            ⟨fun a b c hab hbc => lexLe_trans hab hbc⟩
          exact List.Sorted.insertionSort_eq
            (List.sorted_insertionSort keyLe (parseQs u.query))
        rw [hrt, hsorted]
        split_ifs with hne
        · rfl
        · exact (not_not.1 hne).symm

/-- C9 witness: a concrete idempotence instance through
`normalize_url_idempotent` — an unsorted multi-valued query with a
fragment, normalized twice. -/
theorem normalize_url_idempotent_witness :
    (∀ c ∈ ("b=2&a=1&a=3" : String).toList, c.toNat < 256) ∧
    normalizeUrl (normalizeUrl
        ⟨"http", "example.com", "", "", "b=2&a=1&a=3", "f"⟩) =
      normalizeUrl ⟨"http", "example.com", "", "", "b=2&a=1&a=3", "f"⟩ :=
  ⟨by decide, normalize_url_idempotent
    ⟨"http", "example.com", "", "", "b=2&a=1&a=3", "f"⟩ (by decide)⟩

/-- C9 counterexample to the fragment-stripping part of the claim:
`_normalize_url` passes `parsed.fragment` into `urlunparse` unchanged,
so the fragment is preserved, not stripped (the query is sorted and the
empty path defaulted, as claimed). -/
theorem normalize_url_keeps_fragment :
    normalizeUrl ⟨"http", "example.com", "/p", "", "b=2&a=1", "frag"⟩ =
      ⟨"http", "example.com", "/p", "", "a=1&b=2", "frag"⟩ ∧
    (normalizeUrl
        ⟨"http", "example.com", "/p", "", "b=2&a=1", "frag"⟩).fragment ≠
      "" :=
  ⟨by decide, by decide⟩

end Vulnity
